import Mathlib

/-!
Shallow embedding of the grid step sequencer (`src/routes/+page.svelte`)
and verification of the specification claims.

Conventions of the embedding:
* JS numbers that carry musical configuration (bpm, meter fields, audio
  times) are modelled as rationals `ℚ`; the non-finite inputs mentioned by
  the clamp functions are not representable and are out of scope of the
  claims below.
* JS arrays of booleans (`Step.pitches`) are modelled as `List Bool` of
  length `NUM_PITCHES`; an assignment at an index outside `[0, length)`
  (which in JS grows the array or creates a non-index property and never
  changes the cells of the 72-slot grid) is modelled as a no-op on the
  fixed grid.
* Code that can throw a `TypeError` (an element access on `undefined`)
  is modelled with `Option`, `none` being the thrown exception.
* The `Map` used for the legato registry is modelled as an association
  list with JS `Map` semantics (`set` replaces in place, `delete`
  removes, a fresh key is appended).
-/

namespace SvelteSeq

/-! ## Constants (source lines 4-18) -/

def MAX_STEPS : Nat := 32
def NUM_OCTAVES : Nat := 6
def NUM_PITCHES : Nat := NUM_OCTAVES * 12
def BASE_MIDI_NOTE : Nat := 48
def MIN_BPM : ℚ := 40
def MAX_BPM : ℚ := 300
def MIN_BEATS_PER_MEASURE : ℚ := 1
def MAX_BEATS_PER_MEASURE : ℚ := 16
def MIN_STEPS_PER_BEAT : ℚ := 1
def MAX_STEPS_PER_BEAT : ℚ := 16
def MIN_PATTERN_ID : Nat := 0
def MAX_PATTERNS : Nat := 8

/-! ## ScaleTheory (source lines 159-205) -/

/-- The 13 named scales of the `Scale` union type. -/
inductive Scale where
  | Major
  | NaturalMinor
  | HarmonicMinor
  | MelodicMinor
  | Dorian
  | Phrygian
  | Lydian
  | Mixolydian
  | Locrian
  | PentatonicMajor
  | PentatonicMinor
  | Blues
  | Chromatic
deriving DecidableEq, Repr

def chromatic : List String :=
  ["C", "C#", "D", "D#", "E", "F"] ++ ["F#", "G", "G#", "A", "A#", "B"]

/-- Interval sets of the `scales` record (source lines 162-176). -/
def scales : Scale → List Nat
  | .Major => [0, 2, 4, 5, 7, 9, 11]
  | .NaturalMinor => [0, 2, 3, 5, 7, 8, 10]
  | .HarmonicMinor => [0, 2, 3, 5, 7, 8, 11]
  | .MelodicMinor => [0, 2, 3, 5, 7, 9, 11]
  | .Dorian => [0, 2, 3, 5, 7, 9, 10]
  | .Phrygian => [0, 1, 3, 5, 7, 8, 10]
  | .Lydian => [0, 2, 4, 6, 7, 9, 11]
  | .Mixolydian => [0, 2, 4, 5, 7, 9, 10]
  | .Locrian => [0, 1, 3, 5, 6, 8, 10]
  | .PentatonicMajor => [0, 2, 4, 7, 9]
  | .PentatonicMinor => [0, 3, 5, 7, 10]
  | .Blues => [0, 3, 5, 6, 7, 10]
  | .Chromatic => [0, 1, 2, 3, 4, 5, 6, 7, 8, 9, 10, 11]

/-- `chromatic.indexOf(noteName)`; JS `indexOf` yields `-1` on a miss. -/
def getChromaticIndex (noteName : String) : Int :=
  match chromatic.indexOf? noteName with
  | some i => (i : Int)
  | none => -1

/-- JS `%` on integers truncates toward zero (sign of the dividend). -/
def jsMod (a b : Int) : Int := Int.tmod a b

/-- `isInScale` (source lines 195-201); the pitch index is kept as an
integer because `setCell` consults it before any bounds check. -/
def isInScale (key : String) (scale : Scale) (pitchIndex : Int) : Bool :=
  let noteInOctave := jsMod ((NUM_PITCHES : Int) - 1 - pitchIndex) 12
  let rootIndex := getChromaticIndex key
  let relativeInterval := jsMod (noteInOctave - rootIndex + 12) 12
  (scales scale).any (fun n => (n : Int) == relativeInterval)

/-! ## Data model (source lines 22-62) -/

structure Step where
  pitches : List Bool
deriving DecidableEq, Repr

structure Synth where
  id : Nat
  name : String
  oscType : String
  volume : ℚ
  attackMs : ℚ
  releaseMs : ℚ
  legatoSameNote : Bool
deriving DecidableEq, Repr

structure Pattern where
  id : Nat
  beatsPerMeasure : ℚ
  stepsPerBeat : ℚ
  layers : List (List Step)
deriving DecidableEq, Repr

/-- `clampBeatsPerMeasure` (source lines 262-267). The value returned by
the code is an integral JS number (`Math.trunc`); it is modelled as a
`Nat`.  For `1 ≤ v ≤ 16` truncation toward zero agrees with `⌊v⌋`. -/
def clampBeatsPerMeasure (v : ℚ) : Nat :=
  if v < MIN_BEATS_PER_MEASURE then 1
  else if v > MAX_BEATS_PER_MEASURE then 16
  else ⌊v⌋.toNat

/-- `clampStepsPerBeat` (source lines 269-274). -/
def clampStepsPerBeat (v : ℚ) : Nat :=
  if v < MIN_STEPS_PER_BEAT then 1
  else if v > MAX_STEPS_PER_BEAT then 16
  else ⌊v⌋.toNat

/-- `createStepLayer` (source lines 46-50). -/
def createStepLayer (stepCount : Nat) : List Step :=
  List.replicate stepCount ⟨List.replicate NUM_PITCHES false⟩

/-- `createPattern` (source lines 52-62). -/
def createPattern (patternId : Nat) (beats steps : ℚ) : Pattern :=
  let clampedBeats := clampBeatsPerMeasure beats
  let clampedSteps := clampStepsPerBeat steps
  let stepsCount := clampedBeats * clampedSteps
  { id := patternId
    beatsPerMeasure := (clampedBeats : ℚ)
    stepsPerBeat := (clampedSteps : ℚ)
    layers := [createStepLayer stepsCount, createStepLayer stepsCount] }

/-! ## SequenceTimeline (source lines 276-345) -/

/-- `stepsPerPattern` (source lines 276-280). -/
def stepsPerPattern (patterns : List Pattern) (patternId : Nat) : Nat :=
  match patterns.find? (fun p => p.id == patternId) with
  | none => 4 * 4
  | some pattern =>
      clampBeatsPerMeasure pattern.beatsPerMeasure * clampStepsPerBeat pattern.stepsPerBeat

/-- `getStepForSequenceIndex` (source lines 282-288): the loop sums
`stepsPerPattern` over the entries before `seqIndex` (and before the end
of the sequence), i.e. over `sequence.take seqIndex`. -/
def getStepForSequenceIndex (patterns : List Pattern) (sequence : List Nat)
    (seqIndex : Nat) : Nat :=
  ((sequence.take seqIndex).map (stepsPerPattern patterns)).sum

structure StepLocation where
  patternIndex : Nat
  stepInPattern : Nat
  patternId : Nat
deriving DecidableEq, Repr

/-- Accumulating scan of `getPatternAtStep` (source lines 290-306). -/
def getPatternAtStepAux (patterns : List Pattern) (globalStep : Nat) :
    List Nat → Nat → Nat → Option StepLocation
  | [], _, _ => none
  | patternId :: rest, acc, i =>
      let patSteps := stepsPerPattern patterns patternId
      if globalStep < acc + patSteps then
        some { patternIndex := i, stepInPattern := globalStep - acc, patternId := patternId }
      else
        getPatternAtStepAux patterns globalStep rest (acc + patSteps) (i + 1)

/-- `getPatternAtStep` (source lines 290-306). -/
def getPatternAtStep (patterns : List Pattern) (sequence : List Nat)
    (globalStep : Nat) : Option StepLocation :=
  getPatternAtStepAux patterns globalStep sequence 0 0

/-- `totalSteps` (source lines 343-345). -/
def totalSteps (patterns : List Pattern) (sequence : List Nat) : Nat :=
  (sequence.map (stepsPerPattern patterns)).sum

/-! ## TransportScheduler (source lines 627-668)

The scheduler state is the pair `(isPlaying, currentStep)`; the timer
handle and the audio context are browser resources outside the model.
`stop` also flushes the legato registry; the registry is modelled
separately with the note dispatcher below. -/

structure TransportState where
  isPlaying : Bool
  currentStep : Nat
deriving DecidableEq, Repr

/-- Body of `startPlayingStepsUsingTimeout` (source lines 627-634): one
timer tick.  Note dispatch (`playStep`) and re-arming are side effects on
external resources. -/
def schedulerTick (patterns : List Pattern) (sequence : List Nat)
    (s : TransportState) : TransportState :=
  if !s.isPlaying then s
  else { s with currentStep := (s.currentStep + 1) % totalSteps patterns sequence }

/-- `start` (source lines 636-652). -/
def start (patterns : List Pattern) (sequence : List Nat)
    (selectedSequenceIndex : Nat) (s : TransportState) : TransportState :=
  if s.isPlaying then s
  else { isPlaying := true
         currentStep := getStepForSequenceIndex patterns sequence selectedSequenceIndex }

/-- `stop` (source lines 654-668); the registry flush is modelled with
the dispatcher. -/
def stop (s : TransportState) : TransportState :=
  if !s.isPlaying then s
  else { s with isPlaying := false }

/-! ## Grid write primitives (source lines 405-507)

Cell coordinates are kept as integers: the editor computes translated
positions with signed deltas before any bounds filtering. -/

/-- Assignment `step.pitches[pitch] = b` on one step.  A negative pitch
creates a non-index property in JS; a pitch beyond the end grows the JS
array; neither changes any of the `NUM_PITCHES` grid slots, so both are
no-ops on the fixed-width model (`List.set` ignores an out-of-range
index). -/
def writePitch (st : Step) (pitch : Int) (b : Bool) : Step :=
  if pitch < 0 then st else { pitches := st.pitches.set pitch.toNat b }

/-- Read `layer[step]?.pitches[pitch]` as a boolean. -/
def getCell (layer : List Step) (step pitch : Int) : Bool :=
  if step < 0 ∨ pitch < 0 then false
  else match layer[step.toNat]? with
    | none => false
    | some st => st.pitches.getD pitch.toNat false

/-- `setCell` (source lines 405-410) on a given current layer.  The code
checks the scale lock, then `step >= layer.length`, then performs
`layer[step].pitches[pitchIndex] = state`: for a negative step
`layer[step]` is `undefined` and the access throws, modelled by `none`.
The `!layer` case is handled by the callers (no current layer). -/
def setCell (allowNonScaleNotes : Bool) (key : String) (scale : Scale)
    (step pitchIndex : Int) (state : Bool) (layer : List Step) :
    Option (List Step) :=
  if !allowNonScaleNotes && !isInScale key scale pitchIndex then some layer
  else if (layer.length : Int) ≤ step then some layer
  else if step < 0 then none
  else some (layer.set step.toNat (writePitch (layer.getD step.toNat ⟨[]⟩) pitchIndex state))

/-- One iteration of the `clearNotesAt` loop (source lines 468-476):
guarded only by `if (layer[step])`, i.e. the step being in range. -/
def clearOne (layer : List Step) (c : Int × Int) : List Step :=
  if 0 ≤ c.1 ∧ c.1 < (layer.length : Int) then
    layer.set c.1.toNat (writePitch (layer.getD c.1.toNat ⟨[]⟩) c.2 false)
  else layer

/-- `clearNotesAt` (source lines 468-476). -/
def clearNotesAt (layer : List Step) (positions : List (Int × Int)) : List Step :=
  positions.foldl clearOne layer

/-- One iteration of the `setNotesAt` loop (source lines 478-486): fully
bounds-checked. -/
def setOne (layer : List Step) (c : Int × Int) : List Step :=
  if 0 ≤ c.1 ∧ c.1 < (layer.length : Int) ∧ 0 ≤ c.2 ∧ c.2 < (NUM_PITCHES : Int) then
    layer.set c.1.toNat (writePitch (layer.getD c.1.toNat ⟨[]⟩) c.2 true)
  else layer

/-- `setNotesAt` (source lines 478-486). -/
def setNotesAt (layer : List Step) (positions : List (Int × Int)) : List Step :=
  positions.foldl setOne layer

/-- `moveSelectedNotes` (source lines 488-507) on the current layer and
selection.  `none` means the function returned without touching any
state (empty selection, or a translated coordinate out of bounds);
`some` carries the updated layer and the updated selection. -/
def moveSelectedNotes (deltaStep deltaPitch : Int)
    (selectedNotes : List (Nat × Nat)) (layer : List Step) :
    Option (List Step × List (Nat × Nat)) :=
  if selectedNotes.isEmpty then none
  else
    let newPositions := selectedNotes.map
      (fun n => ((n.1 : Int) + deltaStep, (n.2 : Int) + deltaPitch))
    let inBounds := newPositions.all
      (fun p => decide (0 ≤ p.1) && decide (p.1 < (layer.length : Int)) &&
                decide (0 ≤ p.2) && decide (p.2 < (NUM_PITCHES : Int)))
    if inBounds then
      let cleared := clearNotesAt layer (selectedNotes.map (fun n => ((n.1 : Int), (n.2 : Int))))
      some (setNotesAt cleared newPositions,
            newPositions.map (fun p => (p.1.toNat, p.2.toNat)))
    else none

/-- The dragging branch of `handleCellMouseenter` (source lines 547-585)
acting on the current layer and the transient drag state.  Returns the
new layer, the new `dragLastPositions` and the new
`dragOverwrittenNotes`. -/
def dragEnterLayer (dragStartCell : Nat × Nat) (dragStartNotes : List (Nat × Nat))
    (dragLastPositions dragOverwrittenNotes : List (Int × Int)) (isCloning : Bool)
    (cell : Nat × Nat) (layer : List Step) :
    List Step × List (Int × Int) × List (Int × Int) :=
  let deltaStep : Int := (cell.1 : Int) - (dragStartCell.1 : Int)
  let deltaPitch : Int := (cell.2 : Int) - (dragStartCell.2 : Int)
  let stepsLen := layer.length
  let layer1 :=
    if isCloning then clearNotesAt layer dragLastPositions
    else if !dragLastPositions.isEmpty then clearNotesAt layer dragLastPositions
    else clearNotesAt layer (dragStartNotes.map (fun n => ((n.1 : Int), (n.2 : Int))))
  let layer2 := setNotesAt layer1 dragOverwrittenNotes
  let newLastPositions :=
    (dragStartNotes.map (fun n => ((n.1 : Int) + deltaStep, (n.2 : Int) + deltaPitch))).filter
      (fun p => decide (0 ≤ p.1) && decide (p.1 < (stepsLen : Int)) &&
                decide (0 ≤ p.2) && decide (p.2 < (NUM_PITCHES : Int)))
  let newOverwrittenNotes := newLastPositions.filter (fun p => getCell layer2 p.1 p.2)
  let layer3 := setNotesAt layer2 newLastPositions
  (layer3, newLastPositions, newOverwrittenNotes)

/-! ## NoteDispatcher and the legato registry (source lines 20, 358-403)

The registry `activeNotes` maps the string key `` `${synth.id}-${midiNote}` ``
to the sustained voice; the oscillator and gain nodes are external
WebAudio resources, so an entry is modelled by its scheduled release
time alone.  JS `Map` semantics: `set` on a present key replaces in
place, on an absent key appends; `delete` removes. -/

structure ActiveNote where
  releaseAt : ℚ
deriving DecidableEq, Repr

abbrev Registry := List (String × ActiveNote)

def registryGet (reg : Registry) (k : String) : Option ActiveNote :=
  (List.find? (fun e => e.1 == k) reg).map (fun e => e.2)

def registrySet (reg : Registry) (k : String) (v : ActiveNote) : Registry :=
  if List.any reg (fun e => e.1 == k) then
    List.map (fun e => if e.1 == k then (k, v) else e) reg
  else reg ++ [(k, v)]

def registryDelete (reg : Registry) (k : String) : Registry :=
  List.filter (fun e => !(e.1 == k)) reg

/-- The key `` `${synth.id}-${midiNote}` `` (source line 360). -/
def noteKey (synthId midiNote : Nat) : String :=
  toString synthId ++ "-" ++ toString midiNote

/-- Registry effect of `playNote` (source lines 358-403).  `time` is
`ctx.currentTime` at dispatch (its value at the `playStep` call site,
also used for the freshness test `ctx.currentTime < existing.releaseAt
- 0.02`).  The envelope ramps and oscillator control are external audio
effects; only the registry transition is modelled:
* legato with a fresh entry (more than 20 ms before its release):
  re-envelope in place, update `releaseAt`;
* legato with a stale entry: stop and delete it, then start a fresh
  voice and register it;
* legato with no entry: start a fresh voice and register it;
* non-legato: fire and forget, registry untouched. -/
def playNote (reg : Registry) (midiNote : Nat) (time duration : ℚ)
    (synth : Synth) : Registry :=
  let key := noteKey synth.id midiNote
  if synth.legatoSameNote then
    match registryGet reg key with
    | some existing =>
        if time < existing.releaseAt - (2 : ℚ) / 100 then
          registrySet reg key { releaseAt := time + duration }
        else
          registrySet (registryDelete reg key) key { releaseAt := time + duration }
    | none => registrySet reg key { releaseAt := time + duration }
  else reg

/-! ## Pattern meter resize (source lines 689-704) -/

/-- Resize one layer to `stepsPerPat` steps as the `$effect` does: push
empty steps while growing, truncate (`layer.length = stepsPerPat`) while
shrinking, untouched when equal. -/
def resizeLayer (stepsPerPat : Nat) (layer : List Step) : List Step :=
  if layer.length ≠ stepsPerPat then
    if stepsPerPat > layer.length then
      layer ++ List.replicate (stepsPerPat - layer.length) ⟨List.replicate NUM_PITCHES false⟩
    else layer.take stepsPerPat
  else layer

/-- The meter-resize `$effect` (source lines 689-704): every layer of
every pattern is brought to that pattern's clamped step count.
`stepsPerPattern` only reads the meter fields, which the in-place layer
mutation does not change, so it is evaluated on the original list. -/
def meterResizeEffect (patterns : List Pattern) : List Pattern :=
  patterns.map (fun pattern =>
    { pattern with layers := pattern.layers.map (resizeLayer (stepsPerPattern patterns pattern.id)) })

/-! ## SelectionEditor session state (source lines 79-153)

The editor model covers the sequencer with the transport stopped, so
`displayedPatternId` is the derived `selectedPatternId`
(`sequence[selectedSequenceIndex] ?? MIN_PATTERN_ID`, source lines
105-109).  The JS `Set<string>` of `` `${step}-${pitch}` `` keys is
modelled as an insertion-ordered duplicate-free list of coordinate
pairs (the key string determines the pair and vice versa). -/

structure EditorState where
  patterns : List Pattern
  sequence : List Nat
  selectedSequenceIndex : Nat
  key : String
  scale : Scale
  allowNonScaleNotes : Bool
  synths : List Synth
  selectedSynthIndex : Nat
  isPainting : Bool
  paintTargetState : Bool
  selectedNotes : List (Nat × Nat)
  selectionRectAnchor : Option (Nat × Nat)
  selectionRectExtent : Option (Nat × Nat)
  isSelectingRect : Bool
  isDragging : Bool
  dragStartCell : Option (Nat × Nat)
  dragStartNotes : List (Nat × Nat)
  dragLastPositions : List (Int × Int)
  dragOverwrittenNotes : List (Int × Int)
  isCloning : Bool
deriving DecidableEq, Repr

def displayedPatternId (s : EditorState) : Nat :=
  s.sequence.getD s.selectedSequenceIndex MIN_PATTERN_ID

/-- Body of `getCurrentLayer` (source lines 113-117) over an explicit
pattern pool. -/
def layerOf (patterns : List Pattern) (patternId synthIndex : Nat) : Option (List Step) :=
  match patterns.find? (fun p => p.id == patternId) with
  | none => none
  | some pattern =>
      if pattern.layers.length ≤ synthIndex then none
      else some (pattern.layers.getD synthIndex [])

def getCurrentLayer (s : EditorState) : Option (List Step) :=
  layerOf s.patterns (displayedPatternId s) s.selectedSynthIndex

/-- In the source the current layer is mutated through the alias
returned by `getCurrentLayer()`: the first pattern whose id matches is
updated in place. -/
def replaceFirstPattern : List Pattern → Nat → (Pattern → Pattern) → List Pattern
  | [], _, _ => []
  | p :: ps, patternId, f =>
      if p.id == patternId then f p :: ps else p :: replaceFirstPattern ps patternId f

def setCurrentLayer (s : EditorState) (layer : List Step) : EditorState :=
  { s with patterns := (replaceFirstPattern s.patterns (displayedPatternId s)
      (fun p => { p with layers := p.layers.set s.selectedSynthIndex layer })) }

/-- `setCell` (source lines 405-410) acting on the whole editor state,
for the nonnegative grid indices the markup supplies (each cell button
carries `stepIndex < layer.length` and `pitchIndex < NUM_PITCHES`, so
the negative-step throw of `setCell` cannot occur here). -/
def setCellState (s : EditorState) (step pitchIndex : Nat) (state : Bool) : EditorState :=
  if !s.allowNonScaleNotes && !isInScale s.key s.scale (pitchIndex : Int) then s
  else match getCurrentLayer s with
    | none => s
    | some layer =>
        if layer.length ≤ step then s
        else setCurrentLayer s
          (layer.set step (writePitch (layer.getD step ⟨[]⟩) (pitchIndex : Int) state))

/-- Pointer modifiers of a mousedown (`metaKey || ctrlKey`, `shiftKey`,
`altKey`). -/
structure Mods where
  meta : Bool
  shift : Bool
  alt : Bool
deriving DecidableEq, Repr

/-- JS `Set` add of a coordinate key. -/
def selectionAdd (sel : List (Nat × Nat)) (c : Nat × Nat) : List (Nat × Nat) :=
  if sel.contains c then sel else sel ++ [c]

/-- `if (next.has(key)) next.delete(key); else next.add(key)` (source
lines 522-526). -/
def selectionToggle (sel : List (Nat × Nat)) (c : Nat × Nat) : List (Nat × Nat) :=
  if sel.contains c then sel.filter (fun q => !(q == c)) else sel ++ [c]

/-- `handleCellMousedown` (source lines 509-542).  `hasNote`,
`noteSelected` and `isDisabled` are computed by the markup (source lines
1049-1051) from the displayed layer and the selection. -/
def cellMousedown (stepIndex pitchIndex : Nat) (m : Mods) (s : EditorState) : EditorState :=
  let isDisabled := !s.allowNonScaleNotes && !isInScale s.key s.scale (pitchIndex : Int)
  let hasNote :=
    match getCurrentLayer s with
    | some layer => getCell layer (stepIndex : Int) (pitchIndex : Int)
    | none => false
  let noteSelected := s.selectedNotes.contains (stepIndex, pitchIndex)
  if isDisabled then s
  else if m.meta then
    { s with selectionRectAnchor := some (stepIndex, pitchIndex)
             selectionRectExtent := some (stepIndex, pitchIndex)
             isSelectingRect := true }
  else if m.shift && hasNote then
    { s with selectedNotes := selectionToggle s.selectedNotes (stepIndex, pitchIndex) }
  else if noteSelected && decide (0 < s.selectedNotes.length) then
    { s with selectedNotes := []
             dragStartNotes := s.selectedNotes
             dragStartCell := some (stepIndex, pitchIndex)
             dragLastPositions := []
             dragOverwrittenNotes := []
             isCloning := m.alt
             isDragging := true }
  else
    let paintTarget := !hasNote
    { setCellState s stepIndex pitchIndex paintTarget with
        selectedNotes := []
        paintTargetState := paintTarget
        isPainting := true }

/-- `handleCellMouseenter` (source lines 544-589). -/
def cellMouseenter (stepIndex pitchIndex : Nat) (s : EditorState) : EditorState :=
  let isDisabled := !s.allowNonScaleNotes && !isInScale s.key s.scale (pitchIndex : Int)
  if s.isSelectingRect then
    { s with selectionRectExtent := some (stepIndex, pitchIndex) }
  else if s.isDragging && s.dragStartCell.isSome then
    match s.dragStartCell with
    | none => s
    | some anchor =>
        match getCurrentLayer s with
        | none => s
        | some layer =>
            let r := dragEnterLayer anchor s.dragStartNotes s.dragLastPositions
              s.dragOverwrittenNotes s.isCloning (stepIndex, pitchIndex) layer
            { setCurrentLayer s r.1 with
                dragLastPositions := r.2.1
                dragOverwrittenNotes := r.2.2 }
  else if s.isPainting && !isDisabled then
    setCellState s stepIndex pitchIndex s.paintTargetState
  else s

structure SelectionRect where
  minStep : Nat
  maxStep : Nat
  minPitch : Nat
  maxPitch : Nat
deriving DecidableEq, Repr

/-- `getSelectionRect` (source lines 416-429). -/
def getSelectionRect (s : EditorState) : Option SelectionRect :=
  match s.selectionRectAnchor, s.selectionRectExtent with
  | some a, some e =>
      some { minStep := min a.1 e.1, maxStep := max a.1 e.1
             minPitch := min a.2 e.2, maxPitch := max a.2 e.2 }
  | _, _ => none

/-- `addNotesInRectToSelection` (source lines 442-459): every
note-bearing coordinate inside the rectangle is added to the
selection. -/
def addNotesInRectToSelection (s : EditorState) (rect : SelectionRect) : EditorState :=
  match getCurrentLayer s with
  | none => s
  | some layer =>
      let coords : List (Nat × Nat) :=
        ((List.range' rect.minStep (rect.maxStep + 1 - rect.minStep)).map (fun st =>
          (List.range' rect.minPitch (rect.maxPitch + 1 - rect.minPitch)).filterMap (fun p =>
            if getCell layer (Int.ofNat st) (Int.ofNat p) then some (st, p) else none))).flatten
      { s with selectedNotes := coords.foldl selectionAdd s.selectedNotes }

/-- The global `mouseup` handler (source lines 757-771). -/
def handleMouseUp (s : EditorState) : EditorState :=
  let s1 :=
    if s.isSelectingRect then
      let s0 :=
        match getSelectionRect s with
        | some rect => addNotesInRectToSelection s rect
        | none => s
      { s0 with selectionRectAnchor := none, selectionRectExtent := none, isSelectingRect := false }
    else s
  { s1 with isPainting := false, isDragging := false, isCloning := false, dragStartCell := none }

/-- Delete/Backspace branch of the keydown handler (source lines
718-723). -/
def deleteKeyOp (s : EditorState) : EditorState :=
  if decide (0 < s.selectedNotes.length) then
    let s1 :=
      match getCurrentLayer s with
      | none => s
      | some layer =>
          setCurrentLayer s
            (clearNotesAt layer (s.selectedNotes.map
              (fun (n : Nat × Nat) => ((n.1 : Int), (n.2 : Int)))))
    { s1 with selectedNotes := [] }
  else s

/-- Escape branch of the keydown handler (source lines 724-732). -/
def escapeKeyOp (s : EditorState) : EditorState :=
  if decide (0 < s.selectedNotes.length) || s.isSelectingRect then
    { s with selectedNotes := [], selectionRectAnchor := none
             selectionRectExtent := none, isSelectingRect := false }
  else s

/-- Arrow-key branch of the keydown handler (source lines 733-747): the
guard requires a non-empty selection, then `moveSelectedNotes` runs with
the one-unit delta. -/
def arrowKeyOp (deltaStep deltaPitch : Int) (s : EditorState) : EditorState :=
  if decide (0 < s.selectedNotes.length) then
    match getCurrentLayer s with
    | none => s
    | some layer =>
        match moveSelectedNotes deltaStep deltaPitch s.selectedNotes layer with
        | none => s
        | some r => { setCurrentLayer s r.1 with selectedNotes := r.2 }
  else s

/-- `clearPattern` (source lines 670-679). -/
def clearPattern (s : EditorState) : EditorState :=
  match s.patterns.find? (fun p => p.id == displayedPatternId s) with
  | none => s
  | some pattern =>
      { s with patterns := (replaceFirstPattern s.patterns (displayedPatternId s)
          (fun _ => createPattern (displayedPatternId s)
            pattern.beatsPerMeasure pattern.stepsPerBeat)) }

/-- A meter edit through the bound `Beats / bar` and `Steps / beat`
inputs (source lines 969-1014) immediately followed by the resize
`$effect`. -/
def setDisplayedMeter (beats steps : ℚ) (s : EditorState) : EditorState :=
  let s1 := { s with patterns := (replaceFirstPattern s.patterns (displayedPatternId s)
      (fun p => { p with beatsPerMeasure := beats, stepsPerBeat := steps })) }
  { s1 with patterns := meterResizeEffect s1.patterns }

/-- Clicking a synth tab (source lines 838-852) clears the selection. -/
def selectSynth (idx : Nat) (s : EditorState) : EditorState :=
  if idx < s.synths.length then
    { s with selectedSynthIndex := idx, selectedNotes := [] }
  else s

/-- Clicking a sequence cell (source lines 1091-1093). -/
def selectSequenceIndexOp (i : Nat) (s : EditorState) : EditorState :=
  if i < s.sequence.length then { s with selectedSequenceIndex := i } else s

/-- `cyclePatternAtPosition` (source lines 323-330). -/
def cyclePatternAtPosition (seqIndex : Nat) (direction : Int) (s : EditorState) : EditorState :=
  if s.sequence.length ≤ seqIndex then s
  else
    let currentId := s.sequence.getD seqIndex 0
    let nextId :=
      (jsMod ((currentId : Int) - (MIN_PATTERN_ID : Int) + direction + (MAX_PATTERNS : Int))
        (MAX_PATTERNS : Int)).toNat + MIN_PATTERN_ID
    { s with sequence := s.sequence.set seqIndex nextId, selectedSequenceIndex := seqIndex }

/-- `reset()` (source lines 119-153), the session-start state. -/
def initState : EditorState :=
  { patterns := (List.range MAX_PATTERNS).map (fun i => createPattern (MIN_PATTERN_ID + i) 4 4)
    sequence := [0]
    selectedSequenceIndex := 0
    key := "C"
    scale := .NaturalMinor
    allowNonScaleNotes := true
    synths := [{ id := 0, name := "Synth 1", oscType := "square", volume := 3 / 10,
                 attackMs := 10, releaseMs := 100, legatoSameNote := false },
               { id := 1, name := "Synth 2", oscType := "sine", volume := 2 / 10,
                 attackMs := 5, releaseMs := 80, legatoSameNote := false }]
    selectedSynthIndex := 0
    isPainting := false
    paintTargetState := true
    selectedNotes := []
    selectionRectAnchor := none
    selectionRectExtent := none
    isSelectingRect := false
    isDragging := false
    dragStartCell := none
    dragStartNotes := []
    dragLastPositions := []
    dragOverwrittenNotes := []
    isCloning := false }

/-- States reachable from `reset()` by the editor's operations:
painting and toggling (mousedown/mouseenter/mouseup), shift-toggle,
rectangle select, drag, keyboard nudge, delete, escape, clear pattern,
meter resize, and synth/pattern switching.  Pointer events carry the
nonnegative cell indices the markup supplies. -/
inductive Reachable : EditorState → Prop where
  | init : Reachable initState
  | mousedown {s} (stepIndex pitchIndex : Nat) (m : Mods) :
      Reachable s → Reachable (cellMousedown stepIndex pitchIndex m s)
  | mouseenter {s} (stepIndex pitchIndex : Nat) :
      Reachable s → Reachable (cellMouseenter stepIndex pitchIndex s)
  | mouseup {s} : Reachable s → Reachable (handleMouseUp s)
  | deleteKey {s} : Reachable s → Reachable (deleteKeyOp s)
  | escapeKey {s} : Reachable s → Reachable (escapeKeyOp s)
  | arrowUp {s} : Reachable s → Reachable (arrowKeyOp 0 (-1) s)
  | arrowDown {s} : Reachable s → Reachable (arrowKeyOp 0 1 s)
  | arrowLeft {s} : Reachable s → Reachable (arrowKeyOp (-1) 0 s)
  | arrowRight {s} : Reachable s → Reachable (arrowKeyOp 1 0 s)
  | clearPat {s} : Reachable s → Reachable (clearPattern s)
  | setMeter {s} (beats steps : ℚ) : Reachable s → Reachable (setDisplayedMeter beats steps s)
  | synthTab {s} (idx : Nat) : Reachable s → Reachable (selectSynth idx s)
  | seqCell {s} (i : Nat) : Reachable s → Reachable (selectSequenceIndexOp i s)
  | cycleUp {s} (i : Nat) : Reachable s → Reachable (cyclePatternAtPosition i 1 s)
  | cycleDown {s} (i : Nat) : Reachable s → Reachable (cyclePatternAtPosition i (-1) s)

/-- A cell of the displayed pattern's selected layer holds a note. -/
def cellActiveInState (s : EditorState) (c : Nat × Nat) : Bool :=
  match getCurrentLayer s with
  | some layer => getCell layer (c.1 : Int) (c.2 : Int)
  | none => false

/-- The Selection invariant claimed by the spec: every selected
coordinate refers to a cell that currently holds an active note. -/
def selectionPhantomFree (s : EditorState) : Bool :=
  s.selectedNotes.all (cellActiveInState s)

/-! ## Pointwise reading lemmas for the grid primitives -/

/-- Every step of a layer built by the code has exactly `NUM_PITCHES`
pitch slots. -/
def layerWF (layer : List Step) : Prop :=
  ∀ st ∈ layer, st.pitches.length = NUM_PITCHES

/-- A coordinate inside a layer of `len` steps. -/
def inBoundsCell (len : Nat) (q : Int × Int) : Prop :=
  0 ≤ q.1 ∧ q.1 < (len : Int) ∧ 0 ≤ q.2 ∧ q.2 < (NUM_PITCHES : Int)

instance (len : Nat) (q : Int × Int) : Decidable (inBoundsCell len q) := by
  unfold inBoundsCell; infer_instance

instance (layer : List Step) : Decidable (layerWF layer) := by
  unfold layerWF; infer_instance

/-- `getCell` at nonnegative coordinates reads the natural indices. -/
def readCell (layer : List Step) (i j : Nat) : Bool :=
  match layer[i]? with
  | none => false
  | some st => st.pitches.getD j false

lemma getCell_nonneg (layer : List Step) (s p : Int) (hs : 0 ≤ s) (hp : 0 ≤ p) :
    getCell layer s p = readCell layer s.toNat p.toNat := by
  unfold getCell readCell
  rw [if_neg (by omega)]

lemma getCell_ofNat (layer : List Step) (i j : Nat) :
    getCell layer (i : Int) (j : Int) = readCell layer i j := by
  rw [getCell_nonneg layer _ _ (by omega) (by omega)]
  simp

lemma readCell_set (layer : List Step) (i : Nat) (st : Step) (a b : Nat) :
    readCell (layer.set i st) a b =
      if i = a ∧ i < layer.length then st.pitches.getD b false else readCell layer a b := by
  unfold readCell
  rw [List.getElem?_set]
  by_cases h1 : i = a
  · subst h1
    by_cases h2 : i < layer.length
    · simp [h2]
    · have hnone : layer[i]? = none := List.getElem?_eq_none (by omega)
      simp [h2, hnone]
  · simp [h1]

lemma getD_writePitch (st : Step) (p : Int) (b : Bool) (j : Nat) :
    (writePitch st p b).pitches.getD j false =
      if p = (j : Int) ∧ j < st.pitches.length then b else st.pitches.getD j false := by
  unfold writePitch
  by_cases hp : p < 0
  · rw [if_pos hp, if_neg (by omega)]
  · rw [if_neg hp]
    simp only
    rw [List.getD_eq_getElem?_getD, List.getD_eq_getElem?_getD, List.getElem?_set]
    by_cases h1 : p.toNat = j
    · have hpj : p = (j : Int) := by omega
      by_cases h2 : j < st.pitches.length
      · rw [if_pos h1, if_pos (h1 ▸ h2), if_pos ⟨hpj, h2⟩]
        simp
      · rw [if_pos h1, if_neg (by omega), if_neg (by tauto)]
        have : st.pitches[j]? = none := by
          rw [List.getElem?_eq_none]; omega
        simp [this]
    · have hpj : ¬(p = (j : Int) ∧ j < st.pitches.length) := by
        rintro ⟨h, _⟩; omega
      rw [if_neg h1, if_neg hpj]

/-- Reading after the in-place assignment
`layer[i].pitches[p] = b` (with `i` in range). -/
lemma readCell_writeAt (layer : List Step) (i : Nat) (hi : i < layer.length)
    (p : Int) (b : Bool) (a j : Nat) :
    readCell (layer.set i (writePitch (layer.getD i ⟨[]⟩) p b)) a j =
      if i = a ∧ p = (j : Int) ∧ j < (layer.getD i ⟨[]⟩).pitches.length then b
      else readCell layer a j := by
  rw [readCell_set]
  by_cases h1 : i = a ∧ i < layer.length
  · rw [if_pos h1, getD_writePitch]
    by_cases h2 : p = (j : Int) ∧ j < (layer.getD i ⟨[]⟩).pitches.length
    · rw [if_pos h2, if_pos ⟨h1.1, h2⟩]
    · rw [if_neg h2, if_neg (by tauto)]
      obtain ⟨hia, _⟩ := h1
      subst hia
      unfold readCell
      rw [List.getD_eq_getElem?_getD layer i ⟨[]⟩]
      cases hst : layer[i]? with
      | none =>
          rw [List.getElem?_eq_getElem hi] at hst
          exact absurd hst (by simp)
      | some st => simp
  · have h1' : i ≠ a := fun h => h1 ⟨h, hi⟩
    rw [if_neg h1, if_neg (by tauto)]

/-- Reading after one `clearNotesAt` iteration: only the cleared
coordinate changes (to inactive). -/
lemma getCell_clearOne (layer : List Step) (c q : Int × Int) (hq2 : 0 ≤ q.2) :
    getCell (clearOne layer c) q.1 q.2 = if c = q then false else getCell layer q.1 q.2 := by
  unfold clearOne
  by_cases hc : 0 ≤ c.1 ∧ c.1 < (layer.length : Int)
  · rw [if_pos hc]
    by_cases hq1 : 0 ≤ q.1
    · rw [getCell_nonneg _ _ _ hq1 hq2, getCell_nonneg _ _ _ hq1 hq2,
          readCell_writeAt _ _ (by omega)]
      by_cases h : c.1.toNat = q.1.toNat ∧ c.2 = (q.2.toNat : Int) ∧
          q.2.toNat < (layer.getD c.1.toNat ⟨[]⟩).pitches.length
      · rw [if_pos h]
        have hceq : c = q := Prod.ext (by omega) (by omega)
        rw [if_pos hceq]
      · rw [if_neg h]
        by_cases hcq : c = q
        · subst hcq
          rw [if_pos rfl]
          -- the write fell outside the step's pitch list, and so does the read
          have hge : (layer.getD c.1.toNat ⟨[]⟩).pitches.length ≤ c.2.toNat := by
            by_contra hlt
            exact h ⟨rfl, by omega, by omega⟩
          unfold readCell
          cases hst : layer[c.1.toNat]? with
          | none => rfl
          | some st =>
              have hst' : layer.getD c.1.toNat ⟨[]⟩ = st := by
                rw [List.getD_eq_getElem?_getD, hst]
                rfl
              show st.pitches.getD c.2.toNat false = false
              rw [List.getD_eq_getElem?_getD,
                  List.getElem?_eq_none (by rw [← hst']; omega)]
              rfl
        · rw [if_neg hcq]
    · have hL : ∀ M : List Step, getCell M q.1 q.2 = false := by
        intro M
        unfold getCell
        rw [if_pos (by omega)]
      rw [hL, hL]
      simp
  · rw [if_neg hc]
    by_cases hcq : c = q
    · subst hcq
      rw [if_pos rfl]
      -- the step index is out of range, so its cell reads false anyway
      unfold getCell
      by_cases h1 : c.1 < 0 ∨ c.2 < 0
      · rw [if_pos h1]
      · rw [if_neg h1, List.getElem?_eq_none (by omega)]
    · rw [if_neg hcq]

lemma length_clearOne (layer : List Step) (c : Int × Int) :
    (clearOne layer c).length = layer.length := by
  unfold clearOne
  split <;> simp

lemma length_setOne (layer : List Step) (c : Int × Int) :
    (setOne layer c).length = layer.length := by
  unfold setOne
  split <;> simp

lemma length_clearNotesAt (layer : List Step) (ps : List (Int × Int)) :
    (clearNotesAt layer ps).length = layer.length := by
  induction ps generalizing layer with
  | nil => rfl
  | cons c rest ih =>
      unfold clearNotesAt at *
      rw [List.foldl_cons, ih, length_clearOne]

lemma length_setNotesAt (layer : List Step) (ps : List (Int × Int)) :
    (setNotesAt layer ps).length = layer.length := by
  induction ps generalizing layer with
  | nil => rfl
  | cons c rest ih =>
      unfold setNotesAt at *
      rw [List.foldl_cons, ih, length_setOne]

lemma layerWF_set (layer : List Step) (i : Nat) (st : Step)
    (hwf : layerWF layer) (hst : st.pitches.length = NUM_PITCHES) :
    layerWF (layer.set i st) := by
  intro x hx
  rcases List.mem_or_eq_of_mem_set hx with h | h
  · exact hwf x h
  · subst h; exact hst

lemma pitches_length_writePitch (st : Step) (p : Int) (b : Bool) :
    (writePitch st p b).pitches.length = st.pitches.length := by
  unfold writePitch
  split <;> simp

lemma layerWF_getD (layer : List Step) (i : Nat) (hwf : layerWF layer)
    (hi : i < layer.length) :
    (layer.getD i ⟨[]⟩).pitches.length = NUM_PITCHES := by
  have hmem : layer.getD i ⟨[]⟩ ∈ layer := by
    rw [List.getD_eq_getElem?_getD, List.getElem?_eq_getElem hi]
    exact List.getElem_mem hi
  exact hwf _ hmem

/-- Reading after one `setNotesAt` iteration on a well-formed layer:
only the written in-bounds coordinate changes (to active). -/
lemma getCell_setOne (layer : List Step) (c q : Int × Int) (hwf : layerWF layer)
    (hq : inBoundsCell layer.length q) :
    getCell (setOne layer c) q.1 q.2 = if c = q then true else getCell layer q.1 q.2 := by
  obtain ⟨hq1, hq1l, hq2, hq2l⟩ := hq
  unfold setOne
  by_cases hc : 0 ≤ c.1 ∧ c.1 < (layer.length : Int) ∧ 0 ≤ c.2 ∧ c.2 < (NUM_PITCHES : Int)
  · rw [if_pos hc]
    obtain ⟨hc1, hc1l, hc2, hc2l⟩ := hc
    rw [getCell_nonneg _ _ _ hq1 hq2, getCell_nonneg _ _ _ hq1 hq2,
        readCell_writeAt _ _ (by omega)]
    have hpitch : (layer.getD c.1.toNat ⟨[]⟩).pitches.length = NUM_PITCHES :=
      layerWF_getD _ _ hwf (by omega)
    by_cases h : c.1.toNat = q.1.toNat ∧ c.2 = (q.2.toNat : Int) ∧
        q.2.toNat < (layer.getD c.1.toNat ⟨[]⟩).pitches.length
    · rw [if_pos h]
      have hceq : c = q := Prod.ext (by omega) (by omega)
      rw [if_pos hceq]
    · rw [if_neg h]
      have hcq : c ≠ q := by
        intro he
        subst he
        exact h ⟨rfl, by omega, by rw [hpitch]; omega⟩
      rw [if_neg hcq]
  · rw [if_neg hc]
    have hcq : c ≠ q := by
      intro he
      subst he
      exact hc ⟨hq1, hq1l, hq2, hq2l⟩
    rw [if_neg hcq]

lemma layerWF_clearOne (layer : List Step) (c : Int × Int) (hwf : layerWF layer) :
    layerWF (clearOne layer c) := by
  unfold clearOne
  split
  · next hc =>
      exact layerWF_set _ _ _ hwf
        (by rw [pitches_length_writePitch]; exact layerWF_getD _ _ hwf (by omega))
  · exact hwf

lemma layerWF_setOne (layer : List Step) (c : Int × Int) (hwf : layerWF layer) :
    layerWF (setOne layer c) := by
  unfold setOne
  split
  · next hc =>
      exact layerWF_set _ _ _ hwf
        (by rw [pitches_length_writePitch]; exact layerWF_getD _ _ hwf (by omega))
  · exact hwf

lemma layerWF_clearNotesAt (layer : List Step) (ps : List (Int × Int))
    (hwf : layerWF layer) : layerWF (clearNotesAt layer ps) := by
  induction ps generalizing layer with
  | nil => exact hwf
  | cons c rest ih =>
      unfold clearNotesAt at *
      rw [List.foldl_cons]
      exact ih _ (layerWF_clearOne _ _ hwf)

lemma layerWF_setNotesAt (layer : List Step) (ps : List (Int × Int))
    (hwf : layerWF layer) : layerWF (setNotesAt layer ps) := by
  induction ps generalizing layer with
  | nil => exact hwf
  | cons c rest ih =>
      unfold setNotesAt at *
      rw [List.foldl_cons]
      exact ih _ (layerWF_setOne _ _ hwf)

/-- Reading after `clearNotesAt`: exactly the listed coordinates are
inactive, everything else is untouched. -/
lemma getCell_clearNotesAt (layer : List Step) (ps : List (Int × Int))
    (q : Int × Int) (hq2 : 0 ≤ q.2) :
    getCell (clearNotesAt layer ps) q.1 q.2 =
      if q ∈ ps then false else getCell layer q.1 q.2 := by
  induction ps generalizing layer with
  | nil => simp [clearNotesAt]
  | cons c rest ih =>
      unfold clearNotesAt at *
      rw [List.foldl_cons, ih, getCell_clearOne _ _ _ hq2]
      by_cases h1 : q ∈ rest
      · simp [h1]
      · by_cases h2 : c = q
        · subst h2
          simp [h1]
        · have : q ∉ (c :: rest) := by
            intro h
            rcases List.mem_cons.mp h with h | h
            · exact h2 h.symm
            · exact h1 h
          simp [h1, this, h2]

/-- Reading after `setNotesAt` on a well-formed layer: exactly the
listed coordinates are active, everything else is untouched. -/
lemma getCell_setNotesAt (layer : List Step) (ps : List (Int × Int))
    (q : Int × Int) (hwf : layerWF layer) (hq : inBoundsCell layer.length q) :
    getCell (setNotesAt layer ps) q.1 q.2 =
      if q ∈ ps then true else getCell layer q.1 q.2 := by
  induction ps generalizing layer with
  | nil => simp [setNotesAt]
  | cons c rest ih =>
      unfold setNotesAt at *
      rw [List.foldl_cons, ih _ (layerWF_setOne _ _ hwf)
            (by rw [length_setOne]; exact hq),
          getCell_setOne _ _ _ hwf hq]
      by_cases h1 : q ∈ rest
      · simp [h1]
      · by_cases h2 : c = q
        · subst h2
          simp [h1]
        · have : q ∉ (c :: rest) := by
            intro h
            rcases List.mem_cons.mp h with h | h
            · exact h2 h.symm
            · exact h1 h
          simp [h1, this, h2]

/-! ## Timeline lemmas and claim C2 -/

lemma getPatternAtStepAux_none (patterns : List Pattern) (globalStep : Nat) :
    ∀ (seq : List Nat) (acc i : Nat),
      acc + (seq.map (stepsPerPattern patterns)).sum ≤ globalStep →
      getPatternAtStepAux patterns globalStep seq acc i = none
  | [], _, _, _ => rfl
  | hd :: rest, acc, i, h => by
      unfold getPatternAtStepAux
      simp only [List.map_cons, List.sum_cons] at h
      rw [if_neg (by omega)]
      exact getPatternAtStepAux_none patterns globalStep rest _ _ (by omega)

lemma getPatternAtStepAux_hit (patterns : List Pattern) :
    ∀ (seq : List Nat) (j localStep acc i patternId : Nat),
      seq[j]? = some patternId →
      localStep < stepsPerPattern patterns patternId →
      getPatternAtStepAux patterns
        (acc + ((seq.take j).map (stepsPerPattern patterns)).sum + localStep) seq acc i =
        some ⟨i + j, localStep, patternId⟩
  | [], j, localStep, acc, i, patternId, hj, _ => by simp at hj
  | hd :: rest, 0, localStep, acc, i, patternId, hj, hls => by
      simp only [List.getElem?_cons_zero, Option.some.injEq] at hj
      subst hj
      unfold getPatternAtStepAux
      simp only [List.take_zero, List.map_nil, List.sum_nil, Nat.add_zero]
      rw [if_pos (by omega)]
      simp only [Option.some.injEq, StepLocation.mk.injEq, and_true, true_and]
      first
      | trivial
      | omega
  | hd :: rest, j + 1, localStep, acc, i, patternId, hj, hls => by
      simp only [List.getElem?_cons_succ] at hj
      unfold getPatternAtStepAux
      simp only [List.take_succ_cons, List.map_cons, List.sum_cons]
      rw [if_neg (by omega)]
      have ih := getPatternAtStepAux_hit patterns rest j localStep
        (acc + stepsPerPattern patterns hd) (i + 1) patternId hj hls
      rw [show acc + (stepsPerPattern patterns hd +
            ((rest.take j).map (stepsPerPattern patterns)).sum) + localStep
          = acc + stepsPerPattern patterns hd +
            ((rest.take j).map (stepsPerPattern patterns)).sum + localStep by omega]
      rw [ih]
      simp only [Option.some.injEq, StepLocation.mk.injEq, and_true, true_and]
      first
      | trivial
      | omega

/-- The three patterns of the spec's worked example: step counts
`[8, 16, 8]`. -/
def examplePatterns : List Pattern :=
  [createPattern 0 2 4, createPattern 1 4 4, createPattern 2 2 4]

/-- C2: `getPatternAtStep` resolves a global step by the accumulating
linear scan: any step `≥` the sum of all entries' step counts yields
`none`; a step that falls inside entry `j` (at local offset
`localStep`) resolves to that entry's sequence index, pattern id and
local step; and on the `[8, 16, 8]` example, `totalSteps = 32`,
`getStepForSequenceIndex 2 = 24` and step 24 resolves to the third
entry's local step 0. -/
theorem getPatternAtStep_resolves :
    (∀ (patterns : List Pattern) (sequence : List Nat) (globalStep : Nat),
        totalSteps patterns sequence ≤ globalStep →
        getPatternAtStep patterns sequence globalStep = none)
    ∧ (∀ (patterns : List Pattern) (sequence : List Nat) (j localStep patternId : Nat),
        sequence[j]? = some patternId →
        localStep < stepsPerPattern patterns patternId →
        getPatternAtStep patterns sequence
          (getStepForSequenceIndex patterns sequence j + localStep) =
          some ⟨j, localStep, patternId⟩)
    ∧ (totalSteps examplePatterns [0, 1, 2] = 32
        ∧ getStepForSequenceIndex examplePatterns [0, 1, 2] 2 = 24
        ∧ getPatternAtStep examplePatterns [0, 1, 2] 24 = some ⟨2, 0, 2⟩) := by
  refine ⟨?_, ?_, by decide, by decide, by decide⟩
  · intro patterns sequence globalStep h
    exact getPatternAtStepAux_none patterns globalStep sequence 0 0 (by
      unfold totalSteps at h
      omega)
  · intro patterns sequence j localStep patternId hj hls
    have h := getPatternAtStepAux_hit patterns sequence j localStep 0 0 patternId hj hls
    unfold getPatternAtStep
    have heq : 0 + ((sequence.take j).map (stepsPerPattern patterns)).sum + localStep
        = getStepForSequenceIndex patterns sequence j + localStep := by
      unfold getStepForSequenceIndex
      omega
    rw [heq] at h
    rw [h]
    simp only [Option.some.injEq, StepLocation.mk.injEq, and_true, true_and]
    first
    | trivial
    | omega

/-- Witness for C2 at concrete inputs. -/
theorem getPatternAtStep_resolves_witness :
    getPatternAtStep examplePatterns [0, 1, 2] 40 = none
    ∧ getPatternAtStep examplePatterns [0, 1, 2] 9 = some ⟨1, 1, 1⟩ := by
  constructor
  · exact getPatternAtStep_resolves.1 examplePatterns [0, 1, 2] 40 (by decide)
  · have := getPatternAtStep_resolves.2.1 examplePatterns [0, 1, 2] 1 1 1 (by decide)
      (by decide)
    have h9 : getStepForSequenceIndex examplePatterns [0, 1, 2] 1 + 1 = 9 := by decide
    rw [h9] at this
    exact this

/-! ## Transport lemmas and claim C1 -/

lemma stop_isPlaying (s : TransportState) : (stop s).isPlaying = false := by
  unfold stop
  by_cases h : s.isPlaying
  · simp [h]
  · simp [h]

lemma schedulerTick_iterate (patterns : List Pattern) (sequence : List Nat) :
    ∀ (N : Nat) (t : TransportState), t.isPlaying = true →
      (schedulerTick patterns sequence)^[N + 1] t =
        ⟨true, (t.currentStep + (N + 1)) % totalSteps patterns sequence⟩ := by
  intro N
  induction N with
  | zero =>
      intro t ht
      have htick : schedulerTick patterns sequence t =
          ⟨true, (t.currentStep + 1) % totalSteps patterns sequence⟩ := by
        simp [schedulerTick, ht]
      simpa using htick
  | succ n ih =>
      intro t ht
      rw [Function.iterate_succ_apply]
      have htick : schedulerTick patterns sequence t =
          ⟨true, (t.currentStep + 1) % totalSteps patterns sequence⟩ := by
        simp [schedulerTick, ht]
      rw [htick, ih _ rfl]
      simp only [TransportState.mk.injEq, true_and]
      rw [Nat.mod_add_mod]
      congr 1
      omega

/-- C1: from Stopped, `start()` sets `currentStep` to
`getStepForSequenceIndex(selectedSequenceIndex)` and starts playing;
every tick while playing advances `currentStep` to
`(currentStep + 1) % totalSteps()`; hence after `N` ticks from a fresh
`start()` with `selectedSequenceIndex = 0`, `currentStep = N %
totalSteps()`; and `stop()` followed by `start()` resets `currentStep`
to `getStepForSequenceIndex(selectedSequenceIndex)`. -/
theorem transport_currentStep (patterns : List Pattern) (sequence : List Nat)
    (s : TransportState) (N selIdx : Nat)
    (hstopped : s.isPlaying = false) :
    ((start patterns sequence selIdx s).currentStep
        = getStepForSequenceIndex patterns sequence selIdx
      ∧ (start patterns sequence selIdx s).isPlaying = true)
    ∧ (∀ t : TransportState, t.isPlaying = true →
        (schedulerTick patterns sequence t).currentStep
          = (t.currentStep + 1) % totalSteps patterns sequence)
    ∧ ((schedulerTick patterns sequence)^[N] (start patterns sequence 0 s)).currentStep
        = N % totalSteps patterns sequence
    ∧ (start patterns sequence selIdx
        (stop ((schedulerTick patterns sequence)^[N] (start patterns sequence 0 s)))).currentStep
        = getStepForSequenceIndex patterns sequence selIdx := by
  have hstart : ∀ k, start patterns sequence k s =
      ⟨true, getStepForSequenceIndex patterns sequence k⟩ := by
    intro k
    simp [start, hstopped]
  have hzero : getStepForSequenceIndex patterns sequence 0 = 0 := rfl
  have hiter : ∀ M, ((schedulerTick patterns sequence)^[M] (start patterns sequence 0 s)).currentStep
      = M % totalSteps patterns sequence := by
    intro M
    cases M with
    | zero =>
        simp only [Function.iterate_zero, id_eq, hstart, hzero, Nat.zero_mod]
    | succ n =>
        rw [schedulerTick_iterate patterns sequence n _ (by rw [hstart])]
        rw [hstart]
        simp [hzero]
  refine ⟨⟨by rw [hstart], by rw [hstart]⟩, ?_, hiter N, ?_⟩
  · intro t ht
    simp [schedulerTick, ht]
  · have hgen : ∀ t : TransportState, t.isPlaying = false →
        (start patterns sequence selIdx t).currentStep
          = getStepForSequenceIndex patterns sequence selIdx := by
      intro t ht
      simp [start, ht]
    exact hgen _ (stop_isPlaying _)

/-- Witness for C1: a one-pattern four-step loop, six ticks land on step
`6 % 16 = 6`. -/
theorem transport_currentStep_witness :
    ((start examplePatterns [0] 0 ⟨false, 5⟩).currentStep
        = getStepForSequenceIndex examplePatterns [0] 0
      ∧ (start examplePatterns [0] 0 ⟨false, 5⟩).isPlaying = true)
    ∧ (∀ t : TransportState, t.isPlaying = true →
        (schedulerTick examplePatterns [0] t).currentStep
          = (t.currentStep + 1) % totalSteps examplePatterns [0])
    ∧ ((schedulerTick examplePatterns [0])^[6] (start examplePatterns [0] 0 ⟨false, 5⟩)).currentStep
        = 6 % totalSteps examplePatterns [0]
    ∧ (start examplePatterns [0] 0
        (stop ((schedulerTick examplePatterns [0])^[6] (start examplePatterns [0] 0 ⟨false, 5⟩)))).currentStep
        = getStepForSequenceIndex examplePatterns [0] 0 :=
  transport_currentStep examplePatterns [0] ⟨false, 5⟩ 6 0 rfl

/-! ## Meter resize lemmas and claim C5 -/

lemma length_resizeLayer (n : Nat) (layer : List Step) :
    (resizeLayer n layer).length = n := by
  unfold resizeLayer
  by_cases h : layer.length ≠ n
  · rw [if_pos h]
    by_cases h2 : n > layer.length
    · rw [if_pos h2]
      simp only [List.length_append, List.length_replicate]
      omega
    · rw [if_neg h2]
      simp only [List.length_take]
      omega
  · rw [if_neg h]
    omega

lemma resizeLayer_prefix (n : Nat) (layer : List Step) (k : Nat)
    (hk : k < min layer.length n) :
    (resizeLayer n layer)[k]? = layer[k]? := by
  unfold resizeLayer
  by_cases h : layer.length ≠ n
  · rw [if_pos h]
    by_cases h2 : n > layer.length
    · rw [if_pos h2, List.getElem?_append]
      rw [if_pos (by omega)]
    · rw [if_neg h2, List.getElem?_take, if_pos (by omega)]
  · rw [if_neg h]

lemma resizeLayer_pad (n : Nat) (layer : List Step) (k : Nat)
    (hk1 : layer.length ≤ k) (hk2 : k < n) :
    (resizeLayer n layer)[k]? = some ⟨List.replicate NUM_PITCHES false⟩ := by
  unfold resizeLayer
  rw [if_pos (by omega), if_pos (by omega), List.getElem?_append, if_neg (by omega)]
  rw [List.getElem?_replicate, if_pos (by omega)]

/-- C5: after the meter-resize effect runs, every layer of a pattern
holding meter values `b = beatsPerMeasure` and `s = stepsPerBeat` has
length exactly `clamp(b,1,16) * clamp(s,1,16)`; the surviving prefix of
each layer is preserved unchanged, and any appended steps are all
inactive (everything past the boundary is dropped when the new length
is smaller, as the length equation shows). -/
theorem meterResizeEffect_resizes (patterns : List Pattern) (i : Nat) (p : Pattern)
    (hp : patterns[i]? = some p)
    (hfind : patterns.find? (fun q => q.id == p.id) = some p) :
    ∃ p2 : Pattern, (meterResizeEffect patterns)[i]? = some p2 ∧ p2.id = p.id ∧
      p2.layers.length = p.layers.length ∧
      ∀ (j : Nat) (layer : List Step), p.layers[j]? = some layer →
        ∃ layer2 : List Step, p2.layers[j]? = some layer2 ∧
          (layer2.length
              = clampBeatsPerMeasure p.beatsPerMeasure * clampStepsPerBeat p.stepsPerBeat)
          ∧ (∀ k, k < layer.length →
              k < clampBeatsPerMeasure p.beatsPerMeasure * clampStepsPerBeat p.stepsPerBeat →
              layer2[k]? = layer[k]?)
          ∧ (∀ k, layer.length ≤ k →
              k < clampBeatsPerMeasure p.beatsPerMeasure * clampStepsPerBeat p.stepsPerBeat →
              layer2[k]? = some ⟨List.replicate NUM_PITCHES false⟩) := by
  have hsteps : stepsPerPattern patterns p.id
      = clampBeatsPerMeasure p.beatsPerMeasure * clampStepsPerBeat p.stepsPerBeat := by
    unfold stepsPerPattern
    rw [hfind]
  refine ⟨{ p with layers := p.layers.map (resizeLayer (stepsPerPattern patterns p.id)) },
    ?_, rfl, by simp, ?_⟩
  · unfold meterResizeEffect
    rw [List.getElem?_map, hp]
    rfl
  · intro j layer hj
    refine ⟨resizeLayer (stepsPerPattern patterns p.id) layer, ?_, ?_, ?_, ?_⟩
    · simp only
      rw [List.getElem?_map, hj]
      rfl
    · rw [length_resizeLayer, hsteps]
    · intro k hk1 hk2
      exact resizeLayer_prefix _ _ _ (by omega)
    · intro k hk1 hk2
      exact resizeLayer_pad _ _ _ hk1 (by omega)

/-- Witness for C5: shrinking the example's 16-step pattern 1 to 3×2=6
steps. -/
theorem meterResizeEffect_resizes_witness :
    ∃ p2 : Pattern, (meterResizeEffect [createPattern 1 3 2])[0]? = some p2
      ∧ p2.id = (createPattern 1 3 2).id
      ∧ p2.layers.length = (createPattern 1 3 2).layers.length
      ∧ ∀ (j : Nat) (layer : List Step), (createPattern 1 3 2).layers[j]? = some layer →
          ∃ layer2 : List Step, p2.layers[j]? = some layer2 ∧
            (layer2.length = clampBeatsPerMeasure (createPattern 1 3 2).beatsPerMeasure
                * clampStepsPerBeat (createPattern 1 3 2).stepsPerBeat)
            ∧ (∀ k, k < layer.length →
                k < clampBeatsPerMeasure (createPattern 1 3 2).beatsPerMeasure
                    * clampStepsPerBeat (createPattern 1 3 2).stepsPerBeat →
                layer2[k]? = layer[k]?)
            ∧ (∀ k, layer.length ≤ k →
                k < clampBeatsPerMeasure (createPattern 1 3 2).beatsPerMeasure
                    * clampStepsPerBeat (createPattern 1 3 2).stepsPerBeat →
                layer2[k]? = some ⟨List.replicate NUM_PITCHES false⟩) :=
  meterResizeEffect_resizes [createPattern 1 3 2] 0 (createPattern 1 3 2)
    (by decide) (by decide)

/-! ## Legato registry lemmas and claim C4 -/

/-- Number of registry entries stored under a key. -/
def countKey (reg : Registry) (k : String) : Nat :=
  (reg.filter (fun e => e.1 == k)).length

/-- One note dispatch as issued by `playStep`. -/
structure Dispatch where
  midiNote : Nat
  time : ℚ
  duration : ℚ
  synth : Synth
deriving DecidableEq

/-- The registry after a sequence of dispatches from an empty registry
(the state after `reset` or after `stop` flushed it). -/
def dispatchAll (ds : List Dispatch) : Registry :=
  ds.foldl (fun reg d => playNote reg d.midiNote d.time d.duration d.synth) []

lemma registrySet_keys_of_present (reg : Registry) (k : String) (v : ActiveNote) :
    (List.map (fun e => if e.1 == k then (k, v) else e) reg).map Prod.fst
      = reg.map Prod.fst := by
  rw [List.map_map]
  apply List.map_congr_left
  intro e _
  simp only [Function.comp_apply]
  by_cases h : e.1 == k
  · rw [if_pos h]
    have : e.1 = k := by simpa using h
    simp [this]
  · rw [if_neg h]

lemma nodup_registrySet (reg : Registry) (k : String) (v : ActiveNote)
    (h : (reg.map Prod.fst).Nodup) : ((registrySet reg k v).map Prod.fst).Nodup := by
  unfold registrySet
  by_cases hany : List.any reg (fun e => e.1 == k)
  · rw [if_pos hany, registrySet_keys_of_present]
    exact h
  · rw [if_neg hany, List.map_append]
    rw [List.nodup_append]
    refine ⟨h, by simp, ?_⟩
    intro a ha
    simp only [List.map_cons, List.map_nil, List.mem_singleton]
    intro hk
    subst hk
    obtain ⟨e, he, hek⟩ := List.exists_of_mem_map ha
    exact hany (List.any_eq_true.mpr ⟨e, he, by simp [hek]⟩)

lemma nodup_registryDelete (reg : Registry) (k : String)
    (h : (reg.map Prod.fst).Nodup) : ((registryDelete reg k).map Prod.fst).Nodup := by
  have hs : List.Sublist ((registryDelete reg k).map Prod.fst) (reg.map Prod.fst) :=
    List.Sublist.map Prod.fst (List.filter_sublist reg)
  exact h.sublist hs

lemma nodup_playNote (reg : Registry) (midiNote : Nat) (time duration : ℚ)
    (synth : Synth) (h : (reg.map Prod.fst).Nodup) :
    ((playNote reg midiNote time duration synth).map Prod.fst).Nodup := by
  unfold playNote
  by_cases hleg : synth.legatoSameNote
  · rw [hleg]
    simp only [if_true]
    split
    · split
      · exact nodup_registrySet _ _ _ h
      · exact nodup_registrySet _ _ _ (nodup_registryDelete _ _ h)
    · exact nodup_registrySet _ _ _ h
  · simp only [Bool.not_eq_true] at hleg
    rw [hleg]
    simpa using h

lemma countKey_eq_zero (reg : Registry) (k : String)
    (h : k ∉ reg.map Prod.fst) : countKey reg k = 0 := by
  induction reg with
  | nil => rfl
  | cons e rest ih =>
      simp only [List.map_cons, List.mem_cons, not_or] at h
      unfold countKey
      rw [List.filter_cons, if_neg (by simpa using fun he => h.1 he.symm)]
      exact ih h.2

lemma countKey_le_one (reg : Registry) (k : String)
    (h : (reg.map Prod.fst).Nodup) : countKey reg k ≤ 1 := by
  induction reg with
  | nil => exact Nat.zero_le 1
  | cons e rest ih =>
      simp only [List.map_cons, List.nodup_cons] at h
      unfold countKey
      rw [List.filter_cons]
      by_cases he : e.1 == k
      · rw [if_pos he]
        have hk : e.1 = k := by simpa using he
        have : countKey rest k = 0 := countKey_eq_zero rest k (hk ▸ h.1)
        unfold countKey at this
        simp [this]
      · rw [if_neg he]
        exact ih h.2

lemma nodup_dispatchAll (ds : List Dispatch) :
    ((dispatchAll ds).map Prod.fst).Nodup := by
  unfold dispatchAll
  have hgen : ∀ (reg : Registry), (reg.map Prod.fst).Nodup →
      ((ds.foldl (fun reg d => playNote reg d.midiNote d.time d.duration d.synth) reg).map
        Prod.fst).Nodup := by
    induction ds with
    | nil => intro reg h; exact h
    | cons d rest ih =>
        intro reg h
        rw [List.foldl_cons]
        exact ih _ (nodup_playNote _ _ _ _ _ h)
  exact hgen [] (by simp)

/-- C4: with `legato = true` the `activeNotes` registry holds at most
one entry per `(synthId, midiNote)` key after any dispatch sequence
from an empty registry; two legato dispatches for the same (synth,
note) where the second lands before the first's scheduled release
leave exactly one entry for that key — re-enveloped in place when more
than 20 ms remain, stolen (delete then set) otherwise; and a synth
with `legato = false` never writes an entry. -/
theorem legato_registry_protocol :
    (∀ (ds : List Dispatch) (synthId midiNote : Nat),
        countKey (dispatchAll ds) (noteKey synthId midiNote) ≤ 1)
    ∧ (∀ (synth : Synth) (midiNote : Nat) (t1 d1 t2 d2 : ℚ),
        synth.legatoSameNote = true →
        t2 < t1 + d1 →
        countKey (playNote (playNote [] midiNote t1 d1 synth) midiNote t2 d2 synth)
          (noteKey synth.id midiNote) = 1)
    ∧ (∀ (synth : Synth), synth.legatoSameNote = false →
        ∀ (reg : Registry) (midiNote : Nat) (time duration : ℚ),
          playNote reg midiNote time duration synth = reg) := by
  refine ⟨?_, ?_, ?_⟩
  · intro ds synthId midiNote
    exact countKey_le_one _ _ (nodup_dispatchAll ds)
  · intro synth midiNote t1 d1 t2 d2 hleg _
    have h1 : playNote [] midiNote t1 d1 synth
        = [(noteKey synth.id midiNote, ⟨t1 + d1⟩)] := by
      unfold playNote
      rw [hleg]
      simp [registryGet, registrySet]
    rw [h1]
    have hget : registryGet [(noteKey synth.id midiNote, ⟨t1 + d1⟩)]
        (noteKey synth.id midiNote) = some ⟨t1 + d1⟩ := by
      simp [registryGet]
    have h2 : playNote [(noteKey synth.id midiNote, ⟨t1 + d1⟩)] midiNote t2 d2 synth
        = [(noteKey synth.id midiNote, ⟨t2 + d2⟩)] := by
      unfold playNote
      rw [hleg]
      simp only [if_true, hget]
      by_cases hfresh : t2 < t1 + d1 - (2 : ℚ) / 100
      · rw [if_pos hfresh]
        simp [registrySet]
      · rw [if_neg hfresh]
        simp [registrySet, registryDelete]
    rw [h2]
    simp [countKey]
  · intro synth hleg reg midiNote time duration
    unfold playNote
    rw [hleg]
    simp

/-- Witness for C4 at concrete inputs; the second dispatch lands at
`t2 = 99/100`, inside the 20 ms steal window before the release at 1. -/
theorem legato_registry_protocol_witness :
    (countKey (dispatchAll [⟨60, 0, 1, ⟨0, "s", "sine", 1, 1, 1, true⟩⟩,
        ⟨60, 1, 1, ⟨0, "s", "sine", 1, 1, 1, true⟩⟩]) (noteKey 0 60) ≤ 1)
    ∧ countKey (playNote (playNote [] 60 0 1 ⟨0, "s", "sine", 1, 1, 1, true⟩)
        60 (99/100) 1 ⟨0, "s", "sine", 1, 1, 1, true⟩) (noteKey 0 60) = 1
    ∧ playNote [] 60 0 1 ⟨0, "s", "sine", 1, 1, 1, false⟩ = [] := by
  refine ⟨legato_registry_protocol.1 _ 0 60, ?_, ?_⟩
  · exact legato_registry_protocol.2.1 ⟨0, "s", "sine", 1, 1, 1, true⟩ 60 0 1 (99/100) 1 rfl
      (by norm_num)
  · exact legato_registry_protocol.2.2 ⟨0, "s", "sine", 1, 1, 1, false⟩ rfl [] 60 0 1

/-! ## Current-layer round trip -/

lemma getD_set_self (l : List (List Step)) (i : Nat) (a : List Step) (hi : i < l.length) :
    (l.set i a).getD i [] = a := by
  rw [List.getD_eq_getElem?_getD, List.getElem?_set, if_pos rfl, if_pos hi]
  rfl

lemma layerOf_cons_pos (p : Pattern) (ps : List Pattern) (patternId synthIndex : Nat)
    (hid : (p.id == patternId) = true) :
    layerOf (p :: ps) patternId synthIndex =
      if p.layers.length ≤ synthIndex then none
      else some (p.layers.getD synthIndex []) := by
  unfold layerOf
  simp only [List.find?_cons, hid, if_true]

lemma layerOf_cons_neg (p : Pattern) (ps : List Pattern) (patternId synthIndex : Nat)
    (hid : (p.id == patternId) = false) :
    layerOf (p :: ps) patternId synthIndex = layerOf ps patternId synthIndex := by
  unfold layerOf
  simp only [List.find?_cons, hid, Bool.false_eq_true, if_false]

lemma layerOf_replaceFirst (patterns : List Pattern) (patternId synthIndex : Nat)
    (L L2 : List Step) (h : layerOf patterns patternId synthIndex = some L) :
    layerOf (replaceFirstPattern patterns patternId
        (fun p => { p with layers := p.layers.set synthIndex L2 }))
      patternId synthIndex = some L2 := by
  induction patterns with
  | nil => exact absurd h (by simp [layerOf])
  | cons p ps ih =>
      unfold replaceFirstPattern
      by_cases hid : (p.id == patternId) = true
      · rw [if_pos hid]
        rw [layerOf_cons_pos _ _ _ _ hid] at h
        show layerOf ({ p with layers := p.layers.set synthIndex L2 } :: ps)
          patternId synthIndex = some L2
        have hid2 : (({ p with layers := p.layers.set synthIndex L2 }).id == patternId)
            = true := by simpa using hid
        rw [layerOf_cons_pos _ ps patternId synthIndex hid2]
        by_cases hlen : p.layers.length ≤ synthIndex
        · rw [if_pos hlen] at h
          exact absurd h (by simp)
        · rw [if_neg (by simp only [List.length_set]; omega)]
          show some ((p.layers.set synthIndex L2).getD synthIndex []) = some L2
          rw [getD_set_self _ _ _ (by omega)]
      · rw [if_neg hid]
        rw [layerOf_cons_neg _ _ _ _ (by simpa using hid)] at h
        rw [layerOf_cons_neg _ _ _ _ (by simpa using hid)]
        exact ih h

lemma getCurrentLayer_setCurrentLayer (s : EditorState) (L L2 : List Step)
    (hL : getCurrentLayer s = some L) :
    getCurrentLayer (setCurrentLayer s L2) = some L2 :=
  layerOf_replaceFirst s.patterns (displayedPatternId s) s.selectedSynthIndex L L2 hL

/-! ## `moveSelectedNotes` lemmas and claims C3, C10 -/

lemma inBounds_decide (len : Nat) (p : Int × Int) :
    (decide (0 ≤ p.1) && decide (p.1 < (len : Int)) && decide (0 ≤ p.2) &&
      decide (p.2 < (NUM_PITCHES : Int))) = true ↔ inBoundsCell len p := by
  simp [inBoundsCell]
  tauto

lemma moveSelectedNotes_eq_some (deltaStep deltaPitch : Int) (sel : List (Nat × Nat))
    (layer : List Step) (hne : sel ≠ [])
    (hin : ∀ c ∈ sel, inBoundsCell layer.length
      ((c.1 : Int) + deltaStep, (c.2 : Int) + deltaPitch)) :
    moveSelectedNotes deltaStep deltaPitch sel layer = some
      (setNotesAt (clearNotesAt layer (sel.map (fun n => ((n.1 : Int), (n.2 : Int)))))
        (sel.map (fun n => ((n.1 : Int) + deltaStep, (n.2 : Int) + deltaPitch))),
      (sel.map (fun n => ((n.1 : Int) + deltaStep, (n.2 : Int) + deltaPitch))).map
        (fun p => (p.1.toNat, p.2.toNat))) := by
  have hall : (sel.map (fun n => ((n.1 : Int) + deltaStep, (n.2 : Int) + deltaPitch))).all
      (fun p => decide (0 ≤ p.1) && decide (p.1 < (layer.length : Int)) &&
                decide (0 ≤ p.2) && decide (p.2 < (NUM_PITCHES : Int))) = true := by
    rw [List.all_eq_true]
    intro p hp
    obtain ⟨c, hc, rfl⟩ := List.mem_map.mp hp
    exact (inBounds_decide _ _).mpr (hin c hc)
  unfold moveSelectedNotes
  rw [if_neg (by simpa [List.isEmpty_iff] using hne)]
  simp only [hall, if_true]

lemma moveSelectedNotes_eq_none (deltaStep deltaPitch : Int) (sel : List (Nat × Nat))
    (layer : List Step)
    (hbad : ∃ c ∈ sel, ¬ inBoundsCell layer.length
      ((c.1 : Int) + deltaStep, (c.2 : Int) + deltaPitch)) :
    moveSelectedNotes deltaStep deltaPitch sel layer = none := by
  unfold moveSelectedNotes
  by_cases hne : sel.isEmpty
  · rw [if_pos hne]
  · rw [if_neg hne]
    obtain ⟨c, hc, hcbad⟩ := hbad
    have hall : ¬ ((sel.map (fun n => ((n.1 : Int) + deltaStep, (n.2 : Int) + deltaPitch))).all
        (fun p => decide (0 ≤ p.1) && decide (p.1 < (layer.length : Int)) &&
                  decide (0 ≤ p.2) && decide (p.2 < (NUM_PITCHES : Int))) = true) := by
      rw [List.all_eq_true]
      intro hforall
      exact hcbad ((inBounds_decide _ _).mp
        (hforall _ (List.mem_map.mpr ⟨c, hc, rfl⟩)))
    simp only [Bool.not_eq_true] at hall
    simp only [hall, Bool.false_eq_true, if_false]

/-- C10: an in-bounds arrow-key nudge yields exactly the old layer with
every originally selected cell cleared and every destination cell set
active unconditionally: at each in-bounds cell the new value is `true`
on a destination, `false` on a non-destination selected source, and the
old value elsewhere.  A previously present unselected note at a
destination is therefore silently overwritten with no record kept, and
the equation holds at every pitch, so destinations are written even at
out-of-scale pitches while `allowNonScaleNotes` is off
(`moveSelectedNotes` never consults the scale lock). -/
theorem moveSelectedNotes_cell_values (deltaStep deltaPitch : Int)
    (sel : List (Nat × Nat)) (layer : List Step) (hwf : layerWF layer) (hne : sel ≠ [])
    (hin : ∀ c ∈ sel, inBoundsCell layer.length
      ((c.1 : Int) + deltaStep, (c.2 : Int) + deltaPitch)) :
    ∃ r : List Step × List (Nat × Nat),
      moveSelectedNotes deltaStep deltaPitch sel layer = some r
      ∧ r.1.length = layer.length
      ∧ ∀ q : Int × Int, inBoundsCell layer.length q →
          getCell r.1 q.1 q.2 =
            if q ∈ sel.map (fun n => ((n.1 : Int) + deltaStep, (n.2 : Int) + deltaPitch))
              then true
            else if q ∈ sel.map (fun n => ((n.1 : Int), (n.2 : Int))) then false
            else getCell layer q.1 q.2 := by
  refine ⟨_, moveSelectedNotes_eq_some deltaStep deltaPitch sel layer hne hin, ?_, ?_⟩
  · simp only
    rw [length_setNotesAt, length_clearNotesAt]
  · intro q hq
    simp only
    rw [getCell_setNotesAt _ _ _ (layerWF_clearNotesAt _ _ hwf)
          (by rw [length_clearNotesAt]; exact hq),
        getCell_clearNotesAt _ _ _ hq.2.2.1]

/-- Witness for C10: moving the single selected note at `(0, 0)` one
step right onto an occupied cell `(1, 0)` keeps `(1, 0)` active, clears
`(0, 0)`, and leaves `(2, 0)` untouched. -/
theorem moveSelectedNotes_cell_values_witness :
    ∃ r : List Step × List (Nat × Nat),
      moveSelectedNotes 1 0 [(0, 0)]
        (setNotesAt (createStepLayer 4) [(0, 0), (1, 0)]) = some r
      ∧ r.1.length = (setNotesAt (createStepLayer 4) [(0, 0), (1, 0)]).length
      ∧ ∀ q : Int × Int,
          inBoundsCell (setNotesAt (createStepLayer 4) [(0, 0), (1, 0)]).length q →
          getCell r.1 q.1 q.2 =
            if q ∈ [(0, 0)].map (fun n : Nat × Nat => ((n.1 : Int) + 1, (n.2 : Int) + 0))
              then true
            else if q ∈ [(0, 0)].map (fun n : Nat × Nat => ((n.1 : Int), (n.2 : Int)))
              then false
            else getCell (setNotesAt (createStepLayer 4) [(0, 0), (1, 0)]) q.1 q.2 :=
  moveSelectedNotes_cell_values 1 0 [(0, 0)]
    (setNotesAt (createStepLayer 4) [(0, 0), (1, 0)])
    (by decide) (by decide) (by decide)

/-- C3: the arrow-key nudge of a non-empty selection is atomic.  If
every selected coordinate translated by the delta stays inside the
current layer's bounds, all selected notes are moved (every destination
cell is active afterwards) and the selection becomes exactly the set of
translated coordinates; if any translated coordinate leaves the grid,
the whole editor state is completely unchanged. -/
theorem arrowKey_nudge_atomic (s : EditorState) (deltaStep deltaPitch : Int)
    (layer : List Step) (hL : getCurrentLayer s = some layer) (hwf : layerWF layer)
    (hne : s.selectedNotes ≠ []) :
    ((∀ c ∈ s.selectedNotes, inBoundsCell layer.length
        ((c.1 : Int) + deltaStep, (c.2 : Int) + deltaPitch)) →
      ∃ layer2 : List Step,
        getCurrentLayer (arrowKeyOp deltaStep deltaPitch s) = some layer2
        ∧ (∀ c ∈ s.selectedNotes,
            getCell layer2 ((c.1 : Int) + deltaStep) ((c.2 : Int) + deltaPitch) = true)
        ∧ (∀ q : Nat × Nat, q ∈ (arrowKeyOp deltaStep deltaPitch s).selectedNotes ↔
            ∃ c ∈ s.selectedNotes,
              (q.1 : Int) = (c.1 : Int) + deltaStep ∧ (q.2 : Int) = (c.2 : Int) + deltaPitch))
    ∧ ((∃ c ∈ s.selectedNotes, ¬ inBoundsCell layer.length
        ((c.1 : Int) + deltaStep, (c.2 : Int) + deltaPitch)) →
      arrowKeyOp deltaStep deltaPitch s = s) := by
  have hlen : decide (0 < s.selectedNotes.length) = true := by
    simpa using List.length_pos.mpr hne
  constructor
  · intro hin
    obtain ⟨r, hr, hrlen, hcells⟩ := moveSelectedNotes_cell_values deltaStep deltaPitch
      s.selectedNotes layer hwf hne hin
    have hsome := moveSelectedNotes_eq_some deltaStep deltaPitch s.selectedNotes layer hne hin
    have hreq : r =
        (setNotesAt (clearNotesAt layer
            (s.selectedNotes.map (fun n => ((n.1 : Int), (n.2 : Int)))))
            (s.selectedNotes.map
              (fun n => ((n.1 : Int) + deltaStep, (n.2 : Int) + deltaPitch))),
          (s.selectedNotes.map
              (fun n => ((n.1 : Int) + deltaStep, (n.2 : Int) + deltaPitch))).map
            (fun p => (p.1.toNat, p.2.toNat))) := by
      rw [hr] at hsome
      exact Option.some_inj.mp hsome
    have hop : arrowKeyOp deltaStep deltaPitch s =
        { setCurrentLayer s r.1 with selectedNotes := r.2 } := by
      simp only [arrowKeyOp, hlen, hL, hr]
      rw [if_pos trivial]
    refine ⟨r.1, ?_, ?_, ?_⟩
    · rw [hop]
      exact getCurrentLayer_setCurrentLayer s layer r.1 hL
    · intro c hc
      have hq : inBoundsCell layer.length ((c.1 : Int) + deltaStep, (c.2 : Int) + deltaPitch) :=
        hin c hc
      have hcq := hcells ((c.1 : Int) + deltaStep, (c.2 : Int) + deltaPitch) hq
      simp only at hcq
      rw [hcq, if_pos (List.mem_map.mpr ⟨c, hc, rfl⟩)]
    · intro q
      have hsel : (arrowKeyOp deltaStep deltaPitch s).selectedNotes =
          (s.selectedNotes.map
              (fun n => ((n.1 : Int) + deltaStep, (n.2 : Int) + deltaPitch))).map
            (fun p => (p.1.toNat, p.2.toNat)) := by
        rw [hop, hreq]
      rw [hsel]
      simp only [List.mem_map]
      constructor
      · rintro ⟨p, ⟨c, hc, rfl⟩, rfl⟩
        have hbnd := hin c hc
        obtain ⟨hb1, hb2, hb3, hb4⟩ := hbnd
        refine ⟨c, hc, ?_, ?_⟩
        · simp only
          omega
        · simp only
          omega
      · rintro ⟨c, hc, h1, h2⟩
        refine ⟨((c.1 : Int) + deltaStep, (c.2 : Int) + deltaPitch), ⟨c, hc, rfl⟩, ?_⟩
        have hbnd := hin c hc
        obtain ⟨hb1, hb2, hb3, hb4⟩ := hbnd
        cases q with
        | mk q1 q2 =>
            simp only at h1 h2 ⊢
            refine Prod.ext ?_ ?_
            · simp only
              omega
            · simp only
              omega
  · intro hbad
    have hnone := moveSelectedNotes_eq_none deltaStep deltaPitch s.selectedNotes layer hbad
    simp only [arrowKeyOp, hlen, hL, hnone]
    rw [if_pos trivial]

/-- Witness for C3: a single note at `(1, 1)` in a 4-step layer; the
nudge right succeeds, the nudge up from pitch 0 is rejected. -/
theorem arrowKey_nudge_atomic_witness :
    ∃ st : EditorState, ∃ layer : List Step,
      getCurrentLayer st = some layer ∧
      (∃ layer2 : List Step,
        getCurrentLayer (arrowKeyOp 1 0 st) = some layer2
        ∧ (∀ c ∈ st.selectedNotes,
            getCell layer2 ((c.1 : Int) + 1) ((c.2 : Int) + 0) = true)
        ∧ (∀ q : Nat × Nat, q ∈ (arrowKeyOp 1 0 st).selectedNotes ↔
            ∃ c ∈ st.selectedNotes,
              (q.1 : Int) = (c.1 : Int) + 1 ∧ (q.2 : Int) = (c.2 : Int) + 0))
      ∧ arrowKeyOp 0 (-1) st = st := by
  let st : EditorState :=
    { initState with
        patterns := [⟨0, 4, 4, [setNotesAt (createStepLayer 16) [(1, 0)],
          createStepLayer 16]⟩]
        selectedNotes := [(1, 0)] }
  have hL : getCurrentLayer st = some (setNotesAt (createStepLayer 16) [(1, 0)]) := by
    decide
  refine ⟨st, setNotesAt (createStepLayer 16) [(1, 0)], hL, ?_, ?_⟩
  · exact (arrowKey_nudge_atomic st 1 0 _ hL (by decide) (by decide)).1 (by decide)
  · exact (arrowKey_nudge_atomic st 0 (-1) _ hL (by decide) (by decide)).2
      ⟨(1, 0), by decide, by decide⟩

/-! ## Drag-restore lemmas and claim C9 -/

/-- Two layers of equal length whose cells agree everywhere are equal. -/
lemma layer_ext (L M : List Step) (hlen : L.length = M.length)
    (hwfL : layerWF L) (hwfM : layerWF M)
    (h : ∀ q : Int × Int, inBoundsCell L.length q → getCell L q.1 q.2 = getCell M q.1 q.2) :
    L = M := by
  apply List.ext_getElem hlen
  intro i hi1 hi2
  have hpl : L[i].pitches.length = NUM_PITCHES := hwfL _ (List.getElem_mem hi1)
  have hpm : M[i].pitches.length = NUM_PITCHES := hwfM _ (List.getElem_mem hi2)
  have hp : L[i].pitches = M[i].pitches := by
    apply List.ext_getElem (hpl.trans hpm.symm)
    intro j hj1 hj2
    have hq := h ((i : Int), (j : Int)) ⟨by omega, by omega, by omega, by omega⟩
    rw [getCell_ofNat, getCell_ofNat] at hq
    unfold readCell at hq
    rw [List.getElem?_eq_getElem hi1, List.getElem?_eq_getElem hi2] at hq
    simp only at hq
    rw [List.getD_eq_getElem?_getD, List.getD_eq_getElem?_getD,
        List.getElem?_eq_getElem hj1, List.getElem?_eq_getElem hj2] at hq
    simpa using hq
  rw [show L[i] = Step.mk L[i].pitches from rfl, hp]

/-- The list of positions the restore phase of a drag pointer-enter
clears: the last written positions, or — on the very first move of a
plain (non-cloning) drag — the payload's original positions. -/
def clearTargets (payload : List (Nat × Nat)) (cloning : Bool)
    (last : List (Int × Int)) : List (Int × Int) :=
  if cloning then last
  else if !last.isEmpty then last
  else payload.map (fun n => ((n.1 : Int), (n.2 : Int)))

lemma dragClear_eq (L : List Step) (payload : List (Nat × Nat)) (cloning : Bool)
    (last : List (Int × Int)) :
    (if cloning then clearNotesAt L last
     else if !last.isEmpty then clearNotesAt L last
     else clearNotesAt L (payload.map (fun n => ((n.1 : Int), (n.2 : Int)))))
    = clearNotesAt L (clearTargets payload cloning last) := by
  unfold clearTargets
  by_cases hc : cloning
  · simp [hc]
  · by_cases he : last.isEmpty <;> simp [hc, he]

/-- The background the drag keeps restoring: the original layer with
the grabbed payload removed (plain move) or untouched (clone). -/
def dragBackground (L0 : List Step) (payload : List (Nat × Nat)) (cloning : Bool)
    (q : Int × Int) : Bool :=
  if cloning then getCell L0 q.1 q.2
  else if q ∈ payload.map (fun n => ((n.1 : Int), (n.2 : Int))) then false
  else getCell L0 q.1 q.2

/-- Invariant of the drag loop: restoring (clearing the appropriate
positions, then re-setting the recorded overwritten notes) reproduces
the background exactly. -/
def dragPre (L0 : List Step) (payload : List (Nat × Nat)) (cloning : Bool)
    (st : List Step × List (Int × Int) × List (Int × Int)) : Prop :=
  st.1.length = L0.length
  ∧ layerWF st.1
  ∧ (∀ p ∈ st.2.1, inBoundsCell L0.length p)
  ∧ (∀ q : Int × Int, inBoundsCell L0.length q →
      getCell (setNotesAt (clearNotesAt st.1 (clearTargets payload cloning st.2.1)) st.2.2)
        q.1 q.2
      = dragBackground L0 payload cloning q)

/-- A drag in progress, folded over the entered cells from the state
`handleCellMousedown` sets up (`dragLastPositions = []`,
`dragOverwrittenNotes = []`). -/
def dragRun (anchor : Nat × Nat) (payload : List (Nat × Nat)) (cloning : Bool)
    (cells : List (Nat × Nat)) (L0 : List Step) :
    List Step × List (Int × Int) × List (Int × Int) :=
  cells.foldl (fun st cell => dragEnterLayer anchor payload st.2.1 st.2.2 cloning cell st.1)
    (L0, [], [])

lemma dragPre_init (L0 : List Step) (payload : List (Nat × Nat)) (cloning : Bool)
    (hwf : layerWF L0) : dragPre L0 payload cloning (L0, [], []) := by
  refine ⟨rfl, hwf, by simp, ?_⟩
  intro q hq
  show getCell (clearNotesAt L0 (clearTargets payload cloning [])) q.1 q.2 = _
  rw [getCell_clearNotesAt _ _ _ hq.2.2.1]
  unfold clearTargets dragBackground
  by_cases hc : cloning
  · simp [hc]
  · simp only [Bool.not_eq_true] at hc
    subst hc
    simp only [Bool.false_eq_true, if_false, List.isEmpty_nil, Bool.not_true]

/-- One drag pointer-enter from an invariant state: the invariant is
preserved, the resulting layer is the background with the payload
written at the bounds-filtered translated positions, and the recorded
last positions are exactly those in-bounds translated positions. -/
lemma dragEnter_pre (L0 : List Step) (payload : List (Nat × Nat))
    (anchor cell : Nat × Nat) (cloning : Bool) (L : List Step)
    (last over : List (Int × Int))
    (hpre : dragPre L0 payload cloning (L, last, over)) :
    dragPre L0 payload cloning (dragEnterLayer anchor payload last over cloning cell L)
    ∧ (∀ q : Int × Int, inBoundsCell L0.length q →
        getCell (dragEnterLayer anchor payload last over cloning cell L).1 q.1 q.2 =
          if q ∈ (dragEnterLayer anchor payload last over cloning cell L).2.1 then true
          else dragBackground L0 payload cloning q)
    ∧ (∀ p : Int × Int,
        p ∈ (dragEnterLayer anchor payload last over cloning cell L).2.1 ↔
          (p ∈ payload.map (fun n =>
              ((n.1 : Int) + ((cell.1 : Int) - (anchor.1 : Int)),
               (n.2 : Int) + ((cell.2 : Int) - (anchor.2 : Int))))
           ∧ inBoundsCell L0.length p)) := by
  obtain ⟨hlen, hwf, hlastb, hrestore⟩ := hpre
  replace hlen : L.length = L0.length := hlen
  replace hwf : layerWF L := hwf
  replace hlastb : ∀ p ∈ last, inBoundsCell L0.length p := hlastb
  replace hrestore : ∀ q : Int × Int, inBoundsCell L0.length q →
      getCell (setNotesAt (clearNotesAt L (clearTargets payload cloning last)) over) q.1 q.2
      = dragBackground L0 payload cloning q := hrestore
  have hunfold : dragEnterLayer anchor payload last over cloning cell L =
      (setNotesAt
        (setNotesAt (clearNotesAt L (clearTargets payload cloning last)) over)
        ((payload.map (fun n =>
            ((n.1 : Int) + ((cell.1 : Int) - (anchor.1 : Int)),
             (n.2 : Int) + ((cell.2 : Int) - (anchor.2 : Int))))).filter
          (fun p => decide (0 ≤ p.1) && decide (p.1 < (L.length : Int)) &&
                    decide (0 ≤ p.2) && decide (p.2 < (NUM_PITCHES : Int)))),
       (payload.map (fun n =>
            ((n.1 : Int) + ((cell.1 : Int) - (anchor.1 : Int)),
             (n.2 : Int) + ((cell.2 : Int) - (anchor.2 : Int))))).filter
          (fun p => decide (0 ≤ p.1) && decide (p.1 < (L.length : Int)) &&
                    decide (0 ≤ p.2) && decide (p.2 < (NUM_PITCHES : Int))),
       ((payload.map (fun n =>
            ((n.1 : Int) + ((cell.1 : Int) - (anchor.1 : Int)),
             (n.2 : Int) + ((cell.2 : Int) - (anchor.2 : Int))))).filter
          (fun p => decide (0 ≤ p.1) && decide (p.1 < (L.length : Int)) &&
                    decide (0 ≤ p.2) && decide (p.2 < (NUM_PITCHES : Int)))).filter
          (fun p => getCell
            (setNotesAt (clearNotesAt L (clearTargets payload cloning last)) over)
            p.1 p.2)) := by
    unfold dragEnterLayer
    rw [dragClear_eq]
  have hwf2 : layerWF
      (setNotesAt (clearNotesAt L (clearTargets payload cloning last)) over) :=
    layerWF_setNotesAt _ _ (layerWF_clearNotesAt _ _ hwf)
  have hlen2 : (setNotesAt (clearNotesAt L (clearTargets payload cloning last)) over).length
      = L0.length := by
    rw [length_setNotesAt, length_clearNotesAt]
    exact hlen
  have hmemLast : ∀ p : Int × Int,
      p ∈ (payload.map (fun n =>
          ((n.1 : Int) + ((cell.1 : Int) - (anchor.1 : Int)),
           (n.2 : Int) + ((cell.2 : Int) - (anchor.2 : Int))))).filter
        (fun p => decide (0 ≤ p.1) && decide (p.1 < (L.length : Int)) &&
                  decide (0 ≤ p.2) && decide (p.2 < (NUM_PITCHES : Int))) ↔
      (p ∈ payload.map (fun n =>
          ((n.1 : Int) + ((cell.1 : Int) - (anchor.1 : Int)),
           (n.2 : Int) + ((cell.2 : Int) - (anchor.2 : Int))))
       ∧ inBoundsCell L0.length p) := by
    intro p
    rw [List.mem_filter]
    constructor
    · rintro ⟨h1, h2⟩
      refine ⟨h1, ?_⟩
      have h3 := (inBounds_decide L.length p).mp h2
      unfold inBoundsCell at h3 ⊢
      omega
    · rintro ⟨h1, h2⟩
      refine ⟨h1, ?_⟩
      apply (inBounds_decide L.length p).mpr
      unfold inBoundsCell at h2 ⊢
      omega
  have hnlb : ∀ p ∈ (payload.map (fun n =>
      ((n.1 : Int) + ((cell.1 : Int) - (anchor.1 : Int)),
       (n.2 : Int) + ((cell.2 : Int) - (anchor.2 : Int))))).filter
      (fun p => decide (0 ≤ p.1) && decide (p.1 < (L.length : Int)) &&
                decide (0 ≤ p.2) && decide (p.2 < (NUM_PITCHES : Int))),
      inBoundsCell L0.length p := fun p hp => ((hmemLast p).mp hp).2
  -- the layer after this enter, pointwise
  have hL3 : ∀ q : Int × Int, inBoundsCell L0.length q →
      getCell (dragEnterLayer anchor payload last over cloning cell L).1 q.1 q.2 =
        if q ∈ (dragEnterLayer anchor payload last over cloning cell L).2.1 then true
        else dragBackground L0 payload cloning q := by
    intro q hq
    rw [hunfold]
    simp only
    rw [getCell_setNotesAt _ _ _ hwf2 (by rw [hlen2]; exact hq)]
    by_cases hmem : q ∈ (payload.map (fun n =>
        ((n.1 : Int) + ((cell.1 : Int) - (anchor.1 : Int)),
         (n.2 : Int) + ((cell.2 : Int) - (anchor.2 : Int))))).filter
        (fun p => decide (0 ≤ p.1) && decide (p.1 < (L.length : Int)) &&
                  decide (0 ≤ p.2) && decide (p.2 < (NUM_PITCHES : Int)))
    · rw [if_pos hmem, if_pos hmem]
    · rw [if_neg hmem, if_neg hmem]
      exact hrestore q hq
  refine ⟨⟨?_, ?_, ?_, ?_⟩, hL3, ?_⟩
  · rw [hunfold]
    show (setNotesAt _ _).length = L0.length
    rw [length_setNotesAt]
    exact hlen2
  · rw [hunfold]
    exact layerWF_setNotesAt _ _ hwf2
  · rw [hunfold]
    exact hnlb
  · -- the next restore phase reproduces the background again
    intro q hq
    rw [hunfold]
    simp only
    rw [getCell_setNotesAt _ _ _
          (layerWF_clearNotesAt _ _ (layerWF_setNotesAt _ _ hwf2))
          (by rw [length_clearNotesAt, length_setNotesAt, hlen2]; exact hq),
        getCell_clearNotesAt _ _ _ hq.2.2.1,
        getCell_setNotesAt _ _ _ hwf2 (by rw [hlen2]; exact hq)]
    by_cases hover : q ∈ ((payload.map (fun n =>
        ((n.1 : Int) + ((cell.1 : Int) - (anchor.1 : Int)),
         (n.2 : Int) + ((cell.2 : Int) - (anchor.2 : Int))))).filter
        (fun p => decide (0 ≤ p.1) && decide (p.1 < (L.length : Int)) &&
                  decide (0 ≤ p.2) && decide (p.2 < (NUM_PITCHES : Int)))).filter
        (fun p => getCell
          (setNotesAt (clearNotesAt L (clearTargets payload cloning last)) over) p.1 p.2)
    · rw [if_pos hover]
      obtain ⟨hmem, hval⟩ := List.mem_filter.mp hover
      rw [hrestore q hq] at hval
      rw [hval]
    · rw [if_neg hover]
      -- q was not recorded as overwritten
      by_cases hct : q ∈ clearTargets payload cloning
          ((payload.map (fun n =>
              ((n.1 : Int) + ((cell.1 : Int) - (anchor.1 : Int)),
               (n.2 : Int) + ((cell.2 : Int) - (anchor.2 : Int))))).filter
            (fun p => decide (0 ≤ p.1) && decide (p.1 < (L.length : Int)) &&
                      decide (0 ≤ p.2) && decide (p.2 < (NUM_PITCHES : Int))))
      · rw [if_pos hct]
        unfold clearTargets at hct
        by_cases hcl : cloning = true
        · rw [hcl] at hct
          simp only [if_true] at hct
          -- q is a target that was not overwritten: background is inactive
          have hv : ¬ getCell
              (setNotesAt (clearNotesAt L (clearTargets payload cloning last)) over)
              q.1 q.2 = true := by
            intro hv
            exact hover (List.mem_filter.mpr ⟨hct, by simpa using hv⟩)
          rw [hrestore q hq] at hv
          simp only [Bool.not_eq_true] at hv
          rw [hv]
        · simp only [Bool.not_eq_true] at hcl
          rw [hcl] at hct
          simp only [Bool.false_eq_true, if_false] at hct
          by_cases hemp : ((payload.map (fun n =>
              ((n.1 : Int) + ((cell.1 : Int) - (anchor.1 : Int)),
               (n.2 : Int) + ((cell.2 : Int) - (anchor.2 : Int))))).filter
              (fun p => decide (0 ≤ p.1) && decide (p.1 < (L.length : Int)) &&
                        decide (0 ≤ p.2) && decide (p.2 < (NUM_PITCHES : Int)))).isEmpty
          · rw [hemp] at hct
            simp only [Bool.not_true, Bool.false_eq_true, if_false] at hct
            -- q is a payload cell: the plain-move background is inactive there
            unfold dragBackground
            rw [hcl]
            simp only [Bool.false_eq_true, if_false]
            rw [if_pos hct]
          · rw [Bool.not_eq_true] at hemp
            rw [hemp] at hct
            simp only [Bool.not_false, if_true] at hct
            have hv : ¬ getCell
                (setNotesAt (clearNotesAt L (clearTargets payload cloning last)) over)
                q.1 q.2 = true := by
              intro hv
              exact hover (List.mem_filter.mpr ⟨hct, by simpa using hv⟩)
            rw [hrestore q hq] at hv
            simp only [Bool.not_eq_true] at hv
            rw [hv]
      · rw [if_neg hct]
        -- q is untouched by the restore: it must not be a written target
        have hnot : q ∉ (payload.map (fun n =>
            ((n.1 : Int) + ((cell.1 : Int) - (anchor.1 : Int)),
             (n.2 : Int) + ((cell.2 : Int) - (anchor.2 : Int))))).filter
            (fun p => decide (0 ≤ p.1) && decide (p.1 < (L.length : Int)) &&
                      decide (0 ≤ p.2) && decide (p.2 < (NUM_PITCHES : Int))) := by
          intro hmem
          apply hct
          unfold clearTargets
          by_cases hcl : cloning = true
          · rw [hcl]
            simpa using hmem
          · simp only [Bool.not_eq_true] at hcl
            rw [hcl]
            have hne : ¬ ((payload.map (fun n =>
                ((n.1 : Int) + ((cell.1 : Int) - (anchor.1 : Int)),
                 (n.2 : Int) + ((cell.2 : Int) - (anchor.2 : Int))))).filter
                (fun p => decide (0 ≤ p.1) && decide (p.1 < (L.length : Int)) &&
                          decide (0 ≤ p.2) && decide (p.2 < (NUM_PITCHES : Int)))).isEmpty
                = true := by
              rw [List.isEmpty_iff]
              intro hnil
              rw [hnil] at hmem
              exact absurd hmem (List.not_mem_nil q)
            rw [Bool.not_eq_true] at hne
            rw [hne]
            simpa using hmem
        rw [if_neg hnot]
        exact hrestore q hq
  · intro p
    rw [hunfold]
    exact hmemLast p

lemma dragRun_pre (anchor : Nat × Nat) (payload : List (Nat × Nat)) (cloning : Bool)
    (L0 : List Step) (hwf : layerWF L0) (cells : List (Nat × Nat)) :
    dragPre L0 payload cloning (dragRun anchor payload cloning cells L0) := by
  have hgen : ∀ (cs : List (Nat × Nat)) (st : List Step × List (Int × Int) × List (Int × Int)),
      dragPre L0 payload cloning st →
      dragPre L0 payload cloning
        (cs.foldl (fun st cell => dragEnterLayer anchor payload st.2.1 st.2.2 cloning cell st.1)
          st) := by
    intro cs
    induction cs with
    | nil => intro st h; exact h
    | cons c rest ih =>
        intro st h
        rw [List.foldl_cons]
        obtain ⟨L, last, over⟩ := st
        exact ih _ (dragEnter_pre L0 payload anchor c cloning L last over h).1
  exact hgen cells _ (dragPre_init L0 payload cloning hwf)

/-- C9: a drag of a selected set of notes whose net offset is zero
(the final pointer-enter is back at the anchor cell) leaves the layer
exactly equal to the layer before the drag began, whatever cells were
entered in between and whether or not the drag is cloning.  The payload
is the selection captured by `handleCellMousedown`: in-bounds cells
that hold notes. -/
theorem drag_zero_net_offset (anchor : Nat × Nat) (payload : List (Nat × Nat))
    (cloning : Bool) (cells : List (Nat × Nat)) (L0 : List Step) (hwf : layerWF L0)
    (hact : ∀ c ∈ payload, getCell L0 (c.1 : Int) (c.2 : Int) = true) :
    (dragRun anchor payload cloning (cells ++ [anchor]) L0).1 = L0 := by
  have hsplit : dragRun anchor payload cloning (cells ++ [anchor]) L0 =
      dragEnterLayer anchor payload
        (dragRun anchor payload cloning cells L0).2.1
        (dragRun anchor payload cloning cells L0).2.2 cloning anchor
        (dragRun anchor payload cloning cells L0).1 := by
    unfold dragRun
    rw [List.foldl_append]
    rfl
  have hmid := dragRun_pre anchor payload cloning L0 hwf cells
  obtain ⟨hpre2, hptw, hmem⟩ := dragEnter_pre L0 payload anchor anchor cloning
    (dragRun anchor payload cloning cells L0).1
    (dragRun anchor payload cloning cells L0).2.1
    (dragRun anchor payload cloning cells L0).2.2 hmid
  rw [hsplit]
  have htrans : ∀ p : Int × Int,
      p ∈ payload.map (fun n =>
        ((n.1 : Int) + ((anchor.1 : Int) - (anchor.1 : Int)),
         (n.2 : Int) + ((anchor.2 : Int) - (anchor.2 : Int)))) ↔
      p ∈ payload.map (fun n => ((n.1 : Int), (n.2 : Int))) := by
    intro p
    simp only [List.mem_map]
    constructor
    · rintro ⟨c, hc, rfl⟩
      exact ⟨c, hc, by refine Prod.ext ?_ ?_ <;> simp⟩
    · rintro ⟨c, hc, rfl⟩
      exact ⟨c, hc, by refine Prod.ext ?_ ?_ <;> simp⟩
  apply layer_ext _ _ hpre2.1 hpre2.2.1 hwf
  intro q hq
  have hq0 : inBoundsCell L0.length q := by
    rw [hpre2.1] at hq
    exact hq
  rw [hptw q hq0]
  by_cases hp : q ∈ payload.map (fun n => ((n.1 : Int), (n.2 : Int)))
  · rw [if_pos ((hmem q).mpr ⟨(htrans q).mpr hp, hq0⟩)]
    obtain ⟨c, hc, rfl⟩ := List.mem_map.mp hp
    exact (hact c hc).symm
  · rw [if_neg (fun hmem2 => hp ((htrans q).mp ((hmem q).mp hmem2).1))]
    unfold dragBackground
    by_cases hcl : cloning = true
    · rw [hcl]
      simp
    · simp only [Bool.not_eq_true] at hcl
      rw [hcl]
      simp only [Bool.false_eq_true, if_false]
      rw [if_neg hp]

/-- Witness for C9: dragging the single note at `(0, 0)` out to
`(1, 1)` and back to the anchor restores the 4-step layer exactly. -/
theorem drag_zero_net_offset_witness :
    (dragRun (0, 0) [(0, 0)] false [(1, 1), (0, 0)]
      (setNotesAt (createStepLayer 4) [(0, 0)])).1
    = setNotesAt (createStepLayer 4) [(0, 0)] :=
  drag_zero_net_offset (0, 0) [(0, 0)] false [(1, 1)]
    (setNotesAt (createStepLayer 4) [(0, 0)]) (by decide) (by decide)

/-! ## Out-of-bounds writes and claim C7 -/

lemma set_getD_self_layer (l : List Step) (i : Nat) (h : i < l.length) :
    l.set i (l.getD i ⟨[]⟩) = l := by
  apply List.ext_getElem (by simp)
  intro j hj1 hj2
  rcases eq_or_ne i j with rfl | hne
  · rw [List.getElem_set_self]
    rw [List.getD_eq_getElem?_getD, List.getElem?_eq_getElem h]
    rfl
  · rw [List.getElem_set_ne hne]

/-- The write `layer[step].pitches[pitch] = b` leaves a well-formed
layer unchanged whenever the pitch lies outside `[0, NUM_PITCHES)`. -/
lemma writeStep_oob_pitch (layer : List Step) (step : Nat) (pitch : Int) (b : Bool)
    (hwf : layerWF layer) (hstep : step < layer.length)
    (hp : pitch < 0 ∨ (NUM_PITCHES : Int) ≤ pitch) :
    layer.set step (writePitch (layer.getD step ⟨[]⟩) pitch b) = layer := by
  have hlen : (layer.getD step ⟨[]⟩).pitches.length = NUM_PITCHES :=
    layerWF_getD _ _ hwf hstep
  rcases hp with hp | hp
  · rw [show writePitch (layer.getD step ⟨[]⟩) pitch b = layer.getD step ⟨[]⟩ from by
      unfold writePitch
      rw [if_pos hp]]
    exact set_getD_self_layer _ _ hstep
  · rw [show writePitch (layer.getD step ⟨[]⟩) pitch b = layer.getD step ⟨[]⟩ from by
      unfold writePitch
      rw [if_neg (by omega)]
      show Step.mk ((layer.getD step ⟨[]⟩).pitches.set pitch.toNat b) = _
      rw [List.set_eq_of_length_le (by omega)]]
    exact set_getD_self_layer _ _ hstep

lemma clearOne_oob (layer : List Step) (c : Int × Int) (hwf : layerWF layer)
    (h : ¬ inBoundsCell layer.length c) : clearOne layer c = layer := by
  unfold clearOne
  by_cases hstep : 0 ≤ c.1 ∧ c.1 < (layer.length : Int)
  · rw [if_pos hstep]
    have hp : c.2 < 0 ∨ (NUM_PITCHES : Int) ≤ c.2 := by
      unfold inBoundsCell at h
      omega
    exact writeStep_oob_pitch _ _ _ _ hwf (by omega) hp
  · rw [if_neg hstep]

lemma setOne_oob (layer : List Step) (c : Int × Int)
    (h : ¬ inBoundsCell layer.length c) : setOne layer c = layer := by
  unfold setOne
  rw [if_neg (by unfold inBoundsCell at h; tauto)]

/-- C7 (counterexample): `setCell` at a negative step does not silently
no-op — the JS code reaches `layer[step].pitches[...]` with
`layer[step] = undefined` and throws, modelled by `none`.  The scale
lock is off, so the guard before the access does not save it. -/
theorem setCell_negative_step_throws :
    setCell true "C" Scale.Major (-1) 0 true (createStepLayer 4) = none := by decide

/-- C7 (amended): out-of-bounds writes through `setNotesAt` (drag) and
`clearNotesAt` (delete/drag-restore) are silent no-ops at every
coordinate, and `setCell` (toggle/paint) is a silent no-op when the
step is at least the layer length or the pitch lies outside
`[0, NUM_PITCHES)` — but a negative step makes `setCell` throw instead
(previous theorem); its callers only pass nonnegative indices. -/
theorem oob_writes_noop (layer : List Step) (hwf : layerWF layer) :
    (∀ ps : List (Int × Int), (∀ c ∈ ps, ¬ inBoundsCell layer.length c) →
        setNotesAt layer ps = layer)
    ∧ (∀ ps : List (Int × Int), (∀ c ∈ ps, ¬ inBoundsCell layer.length c) →
        clearNotesAt layer ps = layer)
    ∧ (∀ (allow : Bool) (key : String) (scale : Scale) (step pitch : Int) (b : Bool),
        0 ≤ step →
        ((layer.length : Int) ≤ step ∨ pitch < 0 ∨ (NUM_PITCHES : Int) ≤ pitch) →
        setCell allow key scale step pitch b layer = some layer) := by
  refine ⟨?_, ?_, ?_⟩
  · intro ps hps
    induction ps with
    | nil => rfl
    | cons c rest ih =>
        unfold setNotesAt
        rw [List.foldl_cons, setOne_oob _ _ (hps c (List.mem_cons_self c rest))]
        exact ih (fun c hc => hps c (List.mem_cons_of_mem _ hc))
  · intro ps hps
    induction ps with
    | nil => rfl
    | cons c rest ih =>
        unfold clearNotesAt
        rw [List.foldl_cons, clearOne_oob _ _ hwf (hps c (List.mem_cons_self c rest))]
        exact ih (fun c hc => hps c (List.mem_cons_of_mem _ hc))
  · intro allow key scale step pitch b hstep hoob
    unfold setCell
    by_cases hlock : (!allow && !isInScale key scale pitch) = true
    · rw [if_pos hlock]
    · rw [if_neg hlock]
      by_cases hlen : (layer.length : Int) ≤ step
      · rw [if_pos hlen]
      · rw [if_neg hlen, if_neg (by omega)]
        have hp : pitch < 0 ∨ (NUM_PITCHES : Int) ≤ pitch := by
          rcases hoob with h | h | h
          · exact absurd h hlen
          · exact Or.inl h
          · exact Or.inr h
        rw [writeStep_oob_pitch _ _ _ _ hwf (by omega) hp]

/-- Witness for the amended C7 at concrete out-of-bounds inputs. -/
theorem oob_writes_noop_witness :
    setNotesAt (createStepLayer 4) [(7, 0), (0, -1)] = createStepLayer 4
    ∧ clearNotesAt (createStepLayer 4) [(-3, 5), (2, 72)] = createStepLayer 4
    ∧ setCell true "C" Scale.Major 9 0 true (createStepLayer 4)
        = some (createStepLayer 4) := by
  refine ⟨?_, ?_, ?_⟩
  · exact (oob_writes_noop (createStepLayer 4) (by decide)).1 [(7, 0), (0, -1)] (by decide)
  · exact (oob_writes_noop (createStepLayer 4) (by decide)).2.1 [(-3, 5), (2, 72)] (by decide)
  · exact (oob_writes_noop (createStepLayer 4) (by decide)).2.2 true "C" Scale.Major 9 0 true
      (by decide) (by decide)

/-! ## Scale lock and claim C6 -/

lemma mem_selectionAdd (sel : List (Nat × Nat)) (c q : Nat × Nat) :
    q ∈ selectionAdd sel c ↔ q ∈ sel ∨ q = c := by
  unfold selectionAdd
  by_cases h : sel.contains c
  · rw [if_pos h]
    constructor
    · exact Or.inl
    · rintro (hq | rfl)
      · exact hq
      · simpa using h
  · rw [if_neg h]
    simp

lemma mem_foldl_selectionAdd (coords : List (Nat × Nat)) :
    ∀ (init : List (Nat × Nat)) (q : Nat × Nat),
      q ∈ coords.foldl selectionAdd init ↔ q ∈ init ∨ q ∈ coords := by
  induction coords with
  | nil => intro init q; simp
  | cons c rest ih =>
      intro init q
      rw [List.foldl_cons, ih, mem_selectionAdd]
      simp only [List.mem_cons]
      tauto

lemma mem_rectCoords (layer : List Step) (rect : SelectionRect) (q : Nat × Nat) :
    q ∈ ((List.range' rect.minStep (rect.maxStep + 1 - rect.minStep)).map (fun st =>
        (List.range' rect.minPitch (rect.maxPitch + 1 - rect.minPitch)).filterMap (fun p =>
          if getCell layer (Int.ofNat st) (Int.ofNat p) then some (st, p) else none))).flatten
    ↔ (rect.minStep ≤ q.1 ∧ q.1 ≤ rect.maxStep ∧ rect.minPitch ≤ q.2 ∧ q.2 ≤ rect.maxPitch
       ∧ getCell layer (Int.ofNat q.1) (Int.ofNat q.2) = true) := by
  rw [List.mem_flatten]
  constructor
  · rintro ⟨l, hl, hql⟩
    obtain ⟨st, hst, rfl⟩ := List.mem_map.mp hl
    obtain ⟨p, hp, hqp⟩ := List.mem_filterMap.mp hql
    rw [List.mem_range'_1] at hst hp
    by_cases hc : getCell layer (Int.ofNat st) (Int.ofNat p) = true
    · rw [if_pos hc] at hqp
      obtain rfl : (st, p) = q := Option.some_inj.mp hqp
      exact ⟨by omega, by omega, by omega, by omega, hc⟩
    · rw [if_neg hc] at hqp
      exact absurd hqp (by simp)
  · rintro ⟨h1, h2, h3, h4, h5⟩
    refine ⟨(List.range' rect.minPitch (rect.maxPitch + 1 - rect.minPitch)).filterMap (fun p =>
        if getCell layer (Int.ofNat q.1) (Int.ofNat p) then some (q.1, p) else none), ?_, ?_⟩
    · exact List.mem_map.mpr ⟨q.1, List.mem_range'_1.mpr ⟨h1, by omega⟩, rfl⟩
    · apply List.mem_filterMap.mpr
      refine ⟨q.2, List.mem_range'_1.mpr ⟨h3, by omega⟩, ?_⟩
      rw [if_pos h5]

/-- An editor session with the scale lock on (key C Major), a note at
the in-scale top pitch `(0, 71)` grabbed for dragging (the state right
after `handleCellMousedown` started the drag). -/
def dragScaleLockState : EditorState :=
  { initState with
      allowNonScaleNotes := false
      key := "C"
      scale := .Major
      patterns := [⟨0, 4, 4, [setNotesAt (createStepLayer 16) [(0, 71)], createStepLayer 16]⟩]
      isDragging := true
      dragStartCell := some (0, 71)
      dragStartNotes := [(0, 71)] }

/-- C6 (counterexample): with `allowNonScaleNotes = false`, dragging
the grabbed C note down one row writes an active note into the
out-of-scale C♯ cell `(0, 70)` — the drag-move write is not rejected
by the scale lock, contradicting the claim that every write operation
leaves out-of-scale cells unchanged. -/
theorem scale_lock_drag_counterexample :
    dragScaleLockState.allowNonScaleNotes = false
    ∧ isInScale dragScaleLockState.key dragScaleLockState.scale 70 = false
    ∧ cellActiveInState dragScaleLockState (0, 70) = false
    ∧ cellActiveInState (cellMouseenter 0 70 dragScaleLockState) (0, 70) = true := by
  refine ⟨rfl, by decide, by decide, by decide⟩

/-- An editor session with the scale lock on and a pre-existing note at
the out-of-scale pitch `(0, 70)` (placed before the lock was enabled). -/
def lockedNoteState : EditorState :=
  { initState with
      allowNonScaleNotes := false
      key := "C"
      scale := .Major
      patterns := [⟨0, 4, 4, [setNotesAt (createStepLayer 16) [(0, 70)], createStepLayer 16]⟩] }

/-- C6 (amended): when `allowNonScaleNotes` is off, the paint path
(`setCell`) rejects every write at an out-of-scale pitch — both at the
layer level and on the whole editor state — and such a cell remains
readable and selectable: rectangle select still adds it to the
selection when it holds a note.  Drag-move and drag-clone writes,
however, are not scale-filtered (see the counterexample). -/
theorem scale_lock_rejects_paint_only :
    (∀ (key : String) (scale : Scale) (step pitch : Int) (b : Bool) (layer : List Step),
        isInScale key scale pitch = false →
        setCell false key scale step pitch b layer = some layer)
    ∧ (∀ (s : EditorState) (step pitch : Nat) (b : Bool),
        s.allowNonScaleNotes = false → isInScale s.key s.scale (pitch : Int) = false →
        setCellState s step pitch b = s)
    ∧ (∀ (s : EditorState) (rect : SelectionRect) (layer : List Step) (q : Nat × Nat),
        getCurrentLayer s = some layer →
        rect.minStep ≤ q.1 → q.1 ≤ rect.maxStep →
        rect.minPitch ≤ q.2 → q.2 ≤ rect.maxPitch →
        getCell layer (Int.ofNat q.1) (Int.ofNat q.2) = true →
        q ∈ (addNotesInRectToSelection s rect).selectedNotes) := by
  refine ⟨?_, ?_, ?_⟩
  · intro key scale step pitch b layer h
    unfold setCell
    rw [if_pos (by simp [h])]
  · intro s step pitch b h1 h2
    unfold setCellState
    rw [if_pos (by simp [h1, h2])]
  · intro s rect layer q hL h1 h2 h3 h4 h5
    unfold addNotesInRectToSelection
    rw [hL]
    show q ∈ (((List.range' rect.minStep (rect.maxStep + 1 - rect.minStep)).map (fun st =>
        (List.range' rect.minPitch (rect.maxPitch + 1 - rect.minPitch)).filterMap (fun p =>
          if getCell layer (Int.ofNat st) (Int.ofNat p) then some (st, p)
          else none))).flatten).foldl selectionAdd s.selectedNotes
    rw [mem_foldl_selectionAdd]
    right
    rw [mem_rectCoords]
    exact ⟨h1, h2, h3, h4, h5⟩

/-- Witness for the amended C6 at concrete inputs: pitch 70 is C♯,
out of C Major. -/
theorem scale_lock_rejects_paint_only_witness :
    setCell false "C" Scale.Major 0 70 true (createStepLayer 4) = some (createStepLayer 4)
    ∧ setCellState lockedNoteState 0 70 true = lockedNoteState
    ∧ (0, 70) ∈ (addNotesInRectToSelection lockedNoteState ⟨0, 0, 70, 70⟩).selectedNotes := by
  refine ⟨?_, ?_, ?_⟩
  · exact scale_lock_rejects_paint_only.1 "C" Scale.Major 0 70 true (createStepLayer 4)
      (by decide)
  · exact scale_lock_rejects_paint_only.2.1 lockedNoteState 0 70 true rfl (by decide)
  · exact scale_lock_rejects_paint_only.2.2 lockedNoteState ⟨0, 0, 70, 70⟩
      (setNotesAt (createStepLayer 16) [(0, 70)]) (0, 70) (by decide)
      (by decide) (by decide) (by decide) (by decide) (by decide)

/-! ## Selection phantom invariant and claim C8 -/

/-- Paint a note at `(0, 0)`, release, rectangle-select it, release,
then clear the pattern: the selection still holds `(0, 0)` although the
cell no longer has a note. -/
def phantomState : EditorState :=
  clearPattern (handleMouseUp (cellMousedown 0 0 ⟨true, false, false⟩
    (handleMouseUp (cellMousedown 0 0 ⟨false, false, false⟩ initState))))

/-- C8 (counterexample): the phantom-free selection invariant does not
hold in every reachable editor state — `clearPattern` empties the
displayed pattern but leaves the selection untouched, so a previously
selected coordinate survives with no note under it. -/
theorem selection_phantom_invariant_fails :
    ¬ (∀ s : EditorState, Reachable s → selectionPhantomFree s = true) := by
  intro h
  have hreach : Reachable phantomState :=
    Reachable.clearPat (Reachable.mouseup (Reachable.mousedown 0 0 ⟨true, false, false⟩
      (Reachable.mouseup (Reachable.mousedown 0 0 ⟨false, false, false⟩ Reachable.init))))
  exact absurd (h phantomState hreach) (by decide)

lemma mem_selectionToggle (sel : List (Nat × Nat)) (c q : Nat × Nat)
    (h : q ∈ selectionToggle sel c) : q ∈ sel ∨ q = c := by
  unfold selectionToggle at h
  by_cases hc : sel.contains c
  · rw [if_pos hc] at h
    exact Or.inl (List.mem_of_mem_filter h)
  · rw [if_neg hc] at h
    rcases List.mem_append.mp h with h | h
    · exact Or.inl h
    · right
      simpa using h

lemma moveSelectedNotes_some_inv (d1 d2 : Int) (sel : List (Nat × Nat))
    (layer : List Step) (r : List Step × List (Nat × Nat))
    (h : moveSelectedNotes d1 d2 sel layer = some r) :
    sel ≠ []
    ∧ (∀ c ∈ sel, inBoundsCell layer.length ((c.1 : Int) + d1, (c.2 : Int) + d2))
    ∧ r = (setNotesAt (clearNotesAt layer (sel.map (fun n => ((n.1 : Int), (n.2 : Int)))))
            (sel.map (fun n => ((n.1 : Int) + d1, (n.2 : Int) + d2))),
          (sel.map (fun n => ((n.1 : Int) + d1, (n.2 : Int) + d2))).map
            (fun p => (p.1.toNat, p.2.toNat))) := by
  unfold moveSelectedNotes at h
  by_cases hemp : sel.isEmpty
  · rw [if_pos hemp] at h
    exact absurd h (by simp)
  · rw [if_neg hemp] at h
    by_cases hall : (sel.map (fun n => ((n.1 : Int) + d1, (n.2 : Int) + d2))).all
        (fun p => decide (0 ≤ p.1) && decide (p.1 < (layer.length : Int)) &&
                  decide (0 ≤ p.2) && decide (p.2 < (NUM_PITCHES : Int))) = true
    · simp only [hall, if_true] at h
      refine ⟨by simpa [List.isEmpty_iff] using hemp, ?_, (Option.some_inj.mp h).symm⟩
      intro c hc
      exact (inBounds_decide _ _).mp
        (List.all_eq_true.mp hall _ (List.mem_map.mpr ⟨c, hc, rfl⟩))
    · rw [Bool.not_eq_true] at hall
      simp only [hall, Bool.false_eq_true, if_false] at h
      exact absurd h (by simp)

/-- Every `handleCellMousedown` branch either keeps the selection,
empties it, or toggles the clicked note-bearing cell. -/
lemma cellMousedown_selection_cases (s : EditorState) (stepIndex pitchIndex : Nat)
    (m : Mods) :
    ((cellMousedown stepIndex pitchIndex m s).selectedNotes = s.selectedNotes
      ∧ getCurrentLayer (cellMousedown stepIndex pitchIndex m s) = getCurrentLayer s)
    ∨ (cellMousedown stepIndex pitchIndex m s).selectedNotes = []
    ∨ ((cellMousedown stepIndex pitchIndex m s).selectedNotes
          = selectionToggle s.selectedNotes (stepIndex, pitchIndex)
        ∧ getCurrentLayer (cellMousedown stepIndex pitchIndex m s) = getCurrentLayer s
        ∧ cellActiveInState s (stepIndex, pitchIndex) = true) := by
  simp only [cellMousedown]
  split
  · exact Or.inl ⟨rfl, rfl⟩
  · split
    · exact Or.inl ⟨rfl, rfl⟩
    · split
      · next h3 =>
          refine Or.inr (Or.inr ⟨rfl, rfl, ?_⟩)
          rw [Bool.and_eq_true] at h3
          cases hLy : getCurrentLayer s with
          | none =>
              rw [hLy] at h3
              simp only at h3
              exact absurd h3.2 (by simp)
          | some layer =>
              rw [hLy] at h3
              simp only at h3
              unfold cellActiveInState
              rw [hLy]
              exact h3.2
      · split
        · exact Or.inr (Or.inl rfl)
        · exact Or.inr (Or.inl rfl)

lemma getCurrentLayer_handleMouseUp (s : EditorState) :
    getCurrentLayer (handleMouseUp s) = getCurrentLayer s := by
  unfold handleMouseUp
  by_cases h1 : s.isSelectingRect = true
  · rw [if_pos h1]
    cases hrect : getSelectionRect s with
    | none => rfl
    | some rect =>
        unfold addNotesInRectToSelection
        cases hL : getCurrentLayer s with
        | none => exact hL
        | some layer => exact hL
  · rw [if_neg h1]
    rfl

/-- C8 (amended): coordinates are only ever *added* to the selection
for cells that hold an active note: every coordinate of the selection
after a mousedown (shift-toggle included), a mouseup (rectangle-select
commit included), or an arrow-key nudge was either already selected or
refers to a currently active cell.  The full reachable-state invariant
is refuted separately: clear-pattern, meter shrink and pattern
switching leave the stale selection behind. -/
theorem selection_additions_hold_notes :
    (∀ (s : EditorState) (stepIndex pitchIndex : Nat) (m : Mods) (q : Nat × Nat),
        q ∈ (cellMousedown stepIndex pitchIndex m s).selectedNotes →
        q ∈ s.selectedNotes
          ∨ cellActiveInState (cellMousedown stepIndex pitchIndex m s) q = true)
    ∧ (∀ (s : EditorState) (q : Nat × Nat),
        q ∈ (handleMouseUp s).selectedNotes →
        q ∈ s.selectedNotes ∨ cellActiveInState (handleMouseUp s) q = true)
    ∧ (∀ (s : EditorState) (d1 d2 : Int) (layer : List Step) (q : Nat × Nat),
        getCurrentLayer s = some layer → layerWF layer →
        q ∈ (arrowKeyOp d1 d2 s).selectedNotes →
        q ∈ s.selectedNotes ∨ cellActiveInState (arrowKeyOp d1 d2 s) q = true) := by
  refine ⟨?_, ?_, ?_⟩
  · intro s stepIndex pitchIndex m q hq
    rcases cellMousedown_selection_cases s stepIndex pitchIndex m with
      ⟨hsel, _⟩ | hsel | ⟨hsel, hlay, hact⟩
    · rw [hsel] at hq
      exact Or.inl hq
    · rw [hsel] at hq
      exact absurd hq (List.not_mem_nil q)
    · rw [hsel] at hq
      rcases mem_selectionToggle _ _ _ hq with hmem | rfl
      · exact Or.inl hmem
      · right
        unfold cellActiveInState at hact ⊢
        rw [hlay]
        exact hact
  · intro s q hq
    unfold handleMouseUp at hq
    by_cases h1 : s.isSelectingRect = true
    · rw [if_pos h1] at hq
      cases hrect : getSelectionRect s with
      | none =>
          rw [hrect] at hq
          exact Or.inl hq
      | some rect =>
          rw [hrect] at hq
          cases hL : getCurrentLayer s with
          | none =>
              replace hq : q ∈ s.selectedNotes := by
                unfold addNotesInRectToSelection at hq
                rw [hL] at hq
                exact hq
              exact Or.inl hq
          | some layer =>
              replace hq : q ∈ (((List.range' rect.minStep
                  (rect.maxStep + 1 - rect.minStep)).map (fun st =>
                  (List.range' rect.minPitch (rect.maxPitch + 1 - rect.minPitch)).filterMap
                    (fun p => if getCell layer (Int.ofNat st) (Int.ofNat p)
                      then some (st, p) else none))).flatten).foldl
                  selectionAdd s.selectedNotes := by
                unfold addNotesInRectToSelection at hq
                rw [hL] at hq
                exact hq
              rw [mem_foldl_selectionAdd] at hq
              rcases hq with hq | hq
              · exact Or.inl hq
              · right
                rw [mem_rectCoords] at hq
                unfold cellActiveInState
                rw [getCurrentLayer_handleMouseUp, hL]
                exact hq.2.2.2.2
    · rw [if_neg h1] at hq
      exact Or.inl hq
  · intro s d1 d2 layer q hL hwf hq
    simp only [arrowKeyOp] at hq
    by_cases h1 : decide (0 < s.selectedNotes.length) = true
    · rw [if_pos h1] at hq
      rw [hL] at hq
      simp only at hq
      cases hmv : moveSelectedNotes d1 d2 s.selectedNotes layer with
      | none =>
          rw [hmv] at hq
          exact Or.inl hq
      | some r =>
          rw [hmv] at hq
          right
          replace hq : q ∈ r.2 := hq
          obtain ⟨hne, hin, hreq⟩ := moveSelectedNotes_some_inv d1 d2 s.selectedNotes layer r hmv
          have hop : arrowKeyOp d1 d2 s = { setCurrentLayer s r.1 with selectedNotes := r.2 } := by
            simp only [arrowKeyOp, h1, hL, hmv]
            rw [if_pos trivial]
          have hlay : getCurrentLayer (arrowKeyOp d1 d2 s) = some r.1 := by
            rw [hop]
            exact getCurrentLayer_setCurrentLayer s layer r.1 hL
          obtain ⟨p, hp, rfl⟩ := List.mem_map.mp (by rw [hreq] at hq; exact hq)
          obtain ⟨c, hc, rfl⟩ := List.mem_map.mp hp
          obtain ⟨hb1, hb2, hb3, hb4⟩ := hin c hc
          unfold cellActiveInState
          rw [hlay]
          simp only
          have hc1 : ((((c.1 : Int) + d1).toNat : Nat) : Int) = (c.1 : Int) + d1 := by omega
          have hc2 : ((((c.2 : Int) + d2).toNat : Nat) : Int) = (c.2 : Int) + d2 := by omega
          rw [hc1, hc2, hreq]
          simp only
          have hval := getCell_setNotesAt
            (clearNotesAt layer (s.selectedNotes.map (fun n => ((n.1 : Int), (n.2 : Int)))))
            (s.selectedNotes.map (fun n => ((n.1 : Int) + d1, (n.2 : Int) + d2)))
            ((c.1 : Int) + d1, (c.2 : Int) + d2)
            (layerWF_clearNotesAt _ _ hwf)
            (by rw [length_clearNotesAt]; exact hin c hc)
          rw [if_pos (List.mem_map.mpr ⟨c, hc, rfl⟩)] at hval
          exact hval
    · rw [if_neg h1] at hq
      exact Or.inl hq

/-- A session with one note at `(2, 3)` and nothing selected. -/
def witnessNoteState : EditorState :=
  { initState with
      patterns := [⟨0, 4, 4, [setNotesAt (createStepLayer 16) [(2, 3)],
        createStepLayer 16]⟩] }

/-- The same session mid rectangle-select over the note. -/
def witnessRectState : EditorState :=
  { witnessNoteState with
      isSelectingRect := true
      selectionRectAnchor := some (2, 3)
      selectionRectExtent := some (2, 3) }

/-- The same session with the note selected, ready for a nudge. -/
def witnessArrowState : EditorState :=
  { witnessNoteState with selectedNotes := [(2, 3)] }

/-- Witness for the amended C8: a shift-toggle, a rectangle-select
commit, and a nudge, each adding only the note-bearing coordinate. -/
theorem selection_additions_hold_notes_witness :
    ((2, 3) ∈ witnessNoteState.selectedNotes
      ∨ cellActiveInState (cellMousedown 2 3 ⟨false, true, false⟩ witnessNoteState) (2, 3) = true)
    ∧ ((2, 3) ∈ witnessRectState.selectedNotes
      ∨ cellActiveInState (handleMouseUp witnessRectState) (2, 3) = true)
    ∧ ((3, 3) ∈ witnessArrowState.selectedNotes
      ∨ cellActiveInState (arrowKeyOp 1 0 witnessArrowState) (3, 3) = true) := by
  refine ⟨?_, ?_, ?_⟩
  · exact selection_additions_hold_notes.1 witnessNoteState 2 3 ⟨false, true, false⟩ (2, 3)
      (by decide)
  · exact selection_additions_hold_notes.2.1 witnessRectState (2, 3) (by decide)
  · exact selection_additions_hold_notes.2.2 witnessArrowState 1 0
      (setNotesAt (createStepLayer 16) [(2, 3)]) (3, 3) (by decide) (by decide) (by decide)

end SvelteSeq
